import Mathlib

/-!
Verification development for the Skill-Lantern hybrid career-matching engine.

The definitions below are a shallow embedding of the Python sources:
`ai/core/career_matcher.py` (rule-based scorer), `ai/core/ml_predictor.py`
(model adapter and feature aligner), `ai/api/routes/predict.py` (prediction
route and fusion), and `backend/app/models/career_predictor.py` (the separate
backend predictor with its basic-feature fallback).

Modelling conventions:
- Python floats are modelled by exact rationals; Python `round(x, d)` is
  modelled by round-half-to-even on the exact value (`pyRound`).
- Python dictionaries with `get(key, default)` lookups are modelled by
  association lists with a defaulting lookup.
- Fallible steps (scikit-learn calls that can raise) are modelled in the
  `Except` monad; the `try/except` boundaries of the source become matches
  on the `Except` result.
- Python `list.sort` / `sorted` (stable) and the stable model of
  `numpy.argsort` are embedded as `List.insertionSort`, which is stable.
-/

namespace SkillLantern

/-- Round-half-to-even of a rational to an integer: the semantics of Python's
built-in `round` applied to the exact value. -/
def pyRoundInt (q : ℚ) : ℤ :=
  if q - ⌊q⌋ < 1/2 then ⌊q⌋
  else if 1/2 < q - ⌊q⌋ then ⌊q⌋ + 1
  else if ⌊q⌋ % 2 = 0 then ⌊q⌋ else ⌊q⌋ + 1

/-- Python `round(q, d)` on the exact value. -/
def pyRound (q : ℚ) (d : ℕ) : ℚ := (pyRoundInt (q * 10 ^ d) : ℚ) / 10 ^ d

theorem pyRoundInt_intCast (n : ℤ) : pyRoundInt (n : ℚ) = n := by
  unfold pyRoundInt
  rw [Int.floor_intCast]
  simp

theorem floor_le_pyRoundInt (q : ℚ) : ⌊q⌋ ≤ pyRoundInt q := by
  unfold pyRoundInt
  split_ifs <;> omega

theorem pyRoundInt_le_floor_add_one (q : ℚ) : pyRoundInt q ≤ ⌊q⌋ + 1 := by
  unfold pyRoundInt
  split_ifs <;> omega

theorem pyRoundInt_mono {x y : ℚ} (h : x ≤ y) : pyRoundInt x ≤ pyRoundInt y := by
  rcases lt_or_le ⌊x⌋ ⌊y⌋ with hf | hf
  · calc pyRoundInt x ≤ ⌊x⌋ + 1 := pyRoundInt_le_floor_add_one x
      _ ≤ ⌊y⌋ := by omega
      _ ≤ pyRoundInt y := floor_le_pyRoundInt y
  · have hxy : ⌊x⌋ = ⌊y⌋ := le_antisymm (Int.floor_mono h) hf
    have hfr : x - (⌊x⌋ : ℚ) ≤ y - (⌊y⌋ : ℚ) := by
      rw [← hxy]; linarith
    unfold pyRoundInt
    rw [hxy] at hfr ⊢
    split_ifs <;> first | omega | linarith

theorem pyRound_mono {x y : ℚ} (d : ℕ) (h : x ≤ y) : pyRound x d ≤ pyRound y d := by
  unfold pyRound
  have h10 : (0:ℚ) < 10 ^ d := by positivity
  apply (div_le_div_iff_of_pos_right h10).mpr
  exact_mod_cast pyRoundInt_mono (mul_le_mul_of_nonneg_right h (le_of_lt h10))

theorem pyRound_le_intCast {x : ℚ} {n : ℤ} (d : ℕ) (h : x ≤ (n : ℚ)) :
    pyRound x d ≤ (n : ℚ) := by
  unfold pyRound
  have h10 : (0:ℚ) < 10 ^ d := by positivity
  rw [div_le_iff h10]
  have h1 : x * 10 ^ d ≤ (n : ℚ) * 10 ^ d :=
    mul_le_mul_of_nonneg_right h (le_of_lt h10)
  have h2 : pyRoundInt (x * 10 ^ d) ≤ pyRoundInt ((n : ℚ) * 10 ^ d) := pyRoundInt_mono h1
  have h3 : ((n : ℚ) * 10 ^ d) = ((n * 10 ^ d : ℤ) : ℚ) := by push_cast; ring
  rw [h3, pyRoundInt_intCast] at h2
  calc (pyRoundInt (x * 10 ^ d) : ℚ) ≤ ((n * 10 ^ d : ℤ) : ℚ) := by exact_mod_cast h2
    _ = (n : ℚ) * 10 ^ d := by push_cast; ring

theorem intCast_le_pyRound {x : ℚ} {n : ℤ} (d : ℕ) (h : (n : ℚ) ≤ x) :
    (n : ℚ) ≤ pyRound x d := by
  unfold pyRound
  have h10 : (0:ℚ) < 10 ^ d := by positivity
  rw [le_div_iff h10]
  have h1 : (n : ℚ) * 10 ^ d ≤ x * 10 ^ d :=
    mul_le_mul_of_nonneg_right h (le_of_lt h10)
  have h2 : pyRoundInt ((n : ℚ) * 10 ^ d) ≤ pyRoundInt (x * 10 ^ d) := pyRoundInt_mono h1
  have h3 : ((n : ℚ) * 10 ^ d) = ((n * 10 ^ d : ℤ) : ℚ) := by push_cast; ring
  rw [h3, pyRoundInt_intCast] at h2
  calc (n : ℚ) * 10 ^ d = ((n * 10 ^ d : ℤ) : ℚ) := by push_cast; ring
    _ ≤ (pyRoundInt (x * 10 ^ d) : ℚ) := by exact_mod_cast h2

/-! ## Rule-based matcher data model (`ai/core/career_matcher.py`) -/

/-- Lookup in a Python dict of ratings via `d.get(key, 0)`. -/
def dictGet (l : List (String × ℕ)) (k : String) : ℕ := (l.lookup k).getD 0

/-- Python `key in d` membership test for a rating dict. -/
def dictMem (l : List (String × ℕ)) (k : String) : Bool := (l.lookup k).isSome

/-- A user profile as produced by `UserProfile.model_dump()` in the route and
consumed by the matcher. Missing skill or interest keys are looked up with
default 0 via `dictGet`; numeric fields are total because the route validates
their presence. -/
structure UserProfile where
  math_score : ℚ
  science_score : ℚ
  english_score : ℚ
  gpa : ℚ
  skills : List (String × ℕ)
  interests : List (String × ℕ)
  academic_level : String
  certifications : List String

/-- The `academic_weights` sub-dict of a career definition; each subject key
may be absent (`weights.get('math', 0.33)` etc.). -/
structure AcademicWeights where
  math : Option ℚ
  science : Option ℚ
  english : Option ℚ

/-- One catalog entry. Optional fields model the `career.get(key, default)`
lookups of the source. -/
structure CareerDef where
  name : Option String
  category : Option String
  description : Option String
  required_skills : List (String × ℕ)
  required_interests : List (String × ℕ)
  academic_weights : Option AcademicWeights
  min_gpa : Option ℚ

/-- The matcher state: the careers catalog keyed by identifier (a Python dict,
so keys are unique; modelled as an association list). -/
structure CareerMatcher where
  careers : List (String × CareerDef)

/-- Effective math weight: `career.get('academic_weights', \x7b'math': 0.33, ...\x7d)`
followed by `weights.get('math', 0.33)`. -/
def wMath (c : CareerDef) : ℚ :=
  match c.academic_weights with
  | none => 33/100
  | some w => w.math.getD (33/100)

/-- Effective science weight (default 0.33). -/
def wScience (c : CareerDef) : ℚ :=
  match c.academic_weights with
  | none => 33/100
  | some w => w.science.getD (33/100)

/-- Effective english weight (default 0.34). -/
def wEnglish (c : CareerDef) : ℚ :=
  match c.academic_weights with
  | none => 34/100
  | some w => w.english.getD (34/100)

/-- One iteration of the skills / interests loop of `calculate_match_score`:
full proportional credit when the user level meets the requirement, half
proportional credit scaled by `user/required` when the level is positive but
below, zero otherwise. `budget` is 40 for skills and 30 for interests and `n`
is the number of required entries. -/
def tier_contribution (budget : ℚ) (n : ℕ) (required_level user_level : ℕ) : ℚ :=
  if required_level ≤ user_level then
    ((user_level : ℚ) / 5) * (budget / (n : ℚ))
  else if 0 < user_level then
    ((user_level : ℚ) / (required_level : ℚ)) * (budget / (n : ℚ)) * (1/2)
  else 0

/-- The summed skills (budget 40) or interests (budget 30) raw score. -/
def tier_score (budget : ℚ) (required : List (String × ℕ)) (user : List (String × ℕ)) : ℚ :=
  (required.map (fun sr => tier_contribution budget required.length sr.2 (dictGet user sr.1))).sum

/-- The per-career score breakdown dict (`scores`), rounded to 2 decimals. -/
structure ScoreBreakdown where
  academic : ℚ
  skills : ℚ
  interests : ℚ

/-- The result dict returned by `calculate_match_score`. The cosmetic
`explanations` strings are omitted: no claim depends on them and they do not
feed back into any score. -/
structure MatchResult where
  career_id : String
  career_name : String
  category : String
  description : String
  match_score : ℚ
  confidence : ℚ
  score_breakdown : ScoreBreakdown

/-- The academic sub-score (`scores['academic']`): per-subject normalized
score times weight times 30, rounded to 2 decimals. The source applies no
clamp here. -/
def academic_subscore (career : CareerDef) (u : UserProfile) : ℚ :=
  pyRound ((u.math_score / 100) * wMath career * 30 +
    (u.science_score / 100) * wScience career * 30 +
    (u.english_score / 100) * wEnglish career * 30) 2

/-- The skills sub-score (`scores['skills']`): summed tier contributions
clamped to at most 40, rounded to 2 decimals. -/
def skills_subscore (career : CareerDef) (u : UserProfile) : ℚ :=
  pyRound (min (tier_score 40 career.required_skills u.skills) 40) 2

/-- The interests sub-score (`scores['interests']`): summed tier contributions
clamped to at most 30, rounded to 2 decimals. -/
def interests_subscore (career : CareerDef) (u : UserProfile) : ℚ :=
  pyRound (min (tier_score 30 career.required_interests u.interests) 30) 2

/-- The running total after the GPA penalty / bonus: penalty
`(min_gpa - gpa) * 5` below the minimum, flat `+3` bonus at `min_gpa + 0.5`
or above, unchanged in between. -/
def adjusted_total (career : CareerDef) (u : UserProfile) : ℚ :=
  let total_base := academic_subscore career u + skills_subscore career u +
    interests_subscore career u
  let min_gpa := career.min_gpa.getD (5/2)
  if u.gpa < min_gpa then total_base - (min_gpa - u.gpa) * 5
  else if min_gpa + 1/2 ≤ u.gpa then total_base + 3
  else total_base

/-- The final total clamped to [0, 100] (`max(0, min(100, total_score))`). -/
def clamped_total (career : CareerDef) (u : UserProfile) : ℚ :=
  max 0 (min 100 (adjusted_total career u))

/-- `CareerMatcher.calculate_match_score`: returns `none` when the career id
is not in the catalog, otherwise the 30/40/30 weighted score with GPA
penalty / bonus, clamped to [0, 100]. -/
def calculate_match_score (m : CareerMatcher) (u : UserProfile) (career_id : String) :
    Option MatchResult :=
  match m.careers.lookup career_id with
  | none => none
  | some career =>
    some {
      career_id := career_id
      career_name := career.name.getD career_id
      category := career.category.getD "General"
      description := career.description.getD ""
      match_score := pyRound (clamped_total career u) 2
      confidence := pyRound (clamped_total career u / 100) 3
      score_breakdown :=
        ⟨academic_subscore career u, skills_subscore career u, interests_subscore career u⟩ }

/-- `CareerMatcher.get_top_careers`: score every catalog entry, stable-sort
descending by `match_score` (Python `list.sort(key=..., reverse=True)` is
stable), take the first `top_k`. -/
def get_top_careers (m : CareerMatcher) (u : UserProfile) (top_k : ℕ) : List MatchResult :=
  let all_matches := m.careers.filterMap (fun kv => calculate_match_score m u kv.1)
  (all_matches.insertionSort (fun a b => b.match_score ≤ a.match_score)).take top_k

/-! ## Model adapter (`ai/core/ml_predictor.py`) -/

/-- The bundled classifier: `predict_proba` may raise (corrupt feature shape),
modelled in `Except`. -/
structure MLModel where
  predict_proba : List ℚ → Except String (List ℚ)

/-- The bundled label space (`label_encoder.classes_`). -/
structure LabelEncoder where
  classes : List String

/-- The optional bundled feature-scaling transform; may raise. -/
structure Scaler where
  transform : List ℚ → Except String (List ℚ)

/-- The `MLPredictor` object state: all four artifact components are optional
because `_load_model` populates them independently from the joblib bundle. -/
structure MLPredictor where
  model : Option MLModel
  label_encoder : Option LabelEncoder
  feature_names : Option (List String)
  scaler : Option Scaler

/-- `MLPredictor.is_model_loaded`. -/
def is_model_loaded (s : MLPredictor) : Bool := s.model.isSome

/-- `MLPredictor._get_default_feature_names`. -/
def default_feature_names : List String :=
  ["math_score", "science_score", "english_score", "gpa",
   "skill_programming", "skill_communication", "skill_analytical_thinking",
   "skill_problem_solving", "skill_creativity", "skill_leadership",
   "skill_teamwork", "skill_attention_to_detail", "skill_time_management",
   "skill_stress_management", "skill_empathy", "skill_technical_skills",
   "skill_presentation", "skill_project_management", "skill_dedication",
   "skill_integrity", "skill_patience",
   "interest_technology", "interest_engineering", "interest_healthcare",
   "interest_business", "interest_arts", "interest_education",
   "interest_research", "interest_helping_others", "interest_finance",
   "interest_law"]

/-- The per-name step of the `_prepare_features` loop: direct attributes
normalized by their natural maximum, prefixed skill / interest slots
normalized by 5, then a direct dict-membership fallback, else 0. -/
def prepare_value (u : UserProfile) (feature_name : String) : ℚ :=
  if feature_name = "math_score" then u.math_score / 100
  else if feature_name = "science_score" then u.science_score / 100
  else if feature_name = "english_score" then u.english_score / 100
  else if feature_name = "gpa" then u.gpa / 4
  else if feature_name.startsWith "skill_" then
    (dictGet u.skills (feature_name.replace "skill_" "") : ℚ) / 5
  else if feature_name.startsWith "interest_" then
    (dictGet u.interests (feature_name.replace "interest_" "") : ℚ) / 5
  else if dictMem u.skills feature_name then (dictGet u.skills feature_name : ℚ) / 5
  else if dictMem u.interests feature_name then (dictGet u.interests feature_name : ℚ) / 5
  else 0

/-- The feature vector built over an ordered name schema. -/
def build_feature_vector (names : List String) (u : UserProfile) : List ℚ :=
  names.map (prepare_value u)

/-- `MLPredictor._prepare_features`, including its state effect: when
`self.feature_names is None` the method assigns
`self.feature_names = self._get_default_feature_names()` before building the
vector, so the call returns an updated predictor state. -/
def prepare_features (s : MLPredictor) (u : UserProfile) : List ℚ × MLPredictor :=
  match s.feature_names with
  | none =>
    (build_feature_vector default_feature_names u,
     { s with feature_names := some default_feature_names })
  | some names => (build_feature_vector names u, s)

/-- Indexing a probability vector (`probabilities[idx]`; indices produced by
argsort are always in range). -/
def probGet (p : List ℚ) (i : ℕ) : ℚ := p.getD i 0

/-- The comparison used by the stable model of `np.argsort(probabilities)`:
ascending by probability. -/
def argRle (p : List ℚ) (i j : ℕ) : Prop := probGet p i ≤ probGet p j

instance argRleDec (p : List ℚ) : DecidableRel (argRle p) := fun i j =>
  inferInstanceAs (Decidable (probGet p i ≤ probGet p j))

/-- `np.argsort(probabilities)` modelled as a stable ascending sort of the
index range (numpy's stable argsort; the default kind is unspecified on ties,
the stable behaviour is the deterministic model used throughout). -/
def argsort (p : List ℚ) : List ℕ :=
  (List.range p.length).insertionSort (argRle p)

/-- Python slicing `l[-k:]`: the last `k` elements, except that `l[-0:]` is
the whole list. -/
def lastSlice (l : List ℕ) (k : ℕ) : List ℕ :=
  if k = 0 then l else l.drop (l.length - k)

/-- `np.argsort(probabilities)[-top_k:][::-1]`. -/
def top_indices (p : List ℚ) (k : ℕ) : List ℕ := (lastSlice (argsort p) k).reverse

/-- One entry of the prediction list built by `MLPredictor.predict`. -/
structure MLPrediction where
  career_id : String
  career_name : String
  confidence : ℚ
  match_score : ℚ

/-- `self.label_encoder.inverse_transform([idx])[0]`: raises when the encoder
is `None` (AttributeError) or the index is outside the class space
(IndexError); both are modelled as `Except.error`. -/
def inverse_transform (opt : Option LabelEncoder) (idx : ℕ) : Except String String :=
  match opt with
  | none => Except.error "label encoder unavailable"
  | some le =>
    match le.classes[idx]? with
    | some label => Except.ok label
    | none => Except.error "class index out of range"

/-- The body of the prediction loop: resolve the class label, package the
prediction with confidence rounded to 4 decimals and match_score rounded to
2 decimals. -/
def build_prediction (opt : Option LabelEncoder) (p : List ℚ) (idx : ℕ) :
    Except String MLPrediction := do
  let career_label ← inverse_transform opt idx
  let confidence := probGet p idx
  pure {
    career_id := (career_label.toLower).replace " " "_"
    career_name := career_label
    confidence := pyRound confidence 4
    match_score := pyRound (confidence * 100) 2 }

/-- The fallible pipeline inside the `try` of `MLPredictor.predict`: optional
scaling, probability prediction, top-k selection and label decoding. -/
def predict_core (m : MLModel) (s : MLPredictor) (features : List ℚ) (top_k : ℕ) :
    Except String (List MLPrediction) := do
  let scaled ← match s.scaler with
    | some sc => sc.transform features
    | none => pure features
  let probabilities ← m.predict_proba scaled
  (top_indices probabilities top_k).mapM (build_prediction s.label_encoder probabilities)

/-- `MLPredictor.predict` with its state effect: `[]` when no model is loaded;
otherwise features are prepared (possibly caching the default schema into the
state), and any error of the fallible pipeline is swallowed into `[]`. -/
def predict (s : MLPredictor) (u : UserProfile) (top_k : ℕ) :
    List MLPrediction × MLPredictor :=
  match s.model with
  | none => ([], s)
  | some m =>
    let fs := prepare_features s u
    match predict_core m fs.2 fs.1 top_k with
    | Except.ok predictions => (predictions, fs.2)
    | Except.error _ => ([], fs.2)

/-! ## Fusion and prediction route (`ai/api/routes/predict.py`) -/

/-- The fields of a rule-based result dict that `combine_predictions` reads:
`rec.get("career_id")` (a missing or empty id both fail the `if career_id:`
truthiness test, so both are modelled by `""`) and `rec.get("match_score", 0)`.
The remaining display fields are passed through unchanged and do not affect
any output field below, so they are omitted. -/
structure RuleRec where
  career_id : String
  match_score : ℚ

/-- The fields of an ML prediction dict that `combine_predictions` reads. -/
structure MLRec where
  career_id : String
  confidence : ℚ

/-- One accumulator value of the `combined` dict. `match_score` is overwritten
with the rounded combined score for every entry before the function returns. -/
structure CombinedEntry where
  career_id : String
  rule_score : ℚ
  ml_score : ℚ
  combined_score : ℚ
  match_score : ℚ

/-- The accumulator seeded from one rule-based result. -/
def seed_entry (rule_weight : ℚ) (rec : RuleRec) : CombinedEntry :=
  { career_id := rec.career_id
    rule_score := rec.match_score
    ml_score := 0
    combined_score := rec.match_score * rule_weight
    match_score := rec.match_score }

/-- Python dict assignment `combined[career_id] = entry`: replaces the value
in place if the key exists (keeping its insertion position), else appends. -/
def upsert (l : List (String × CombinedEntry)) (k : String) (e : CombinedEntry) :
    List (String × CombinedEntry) :=
  match l with
  | [] => [(k, e)]
  | kv :: rest => if kv.1 = k then (kv.1, e) :: rest else kv :: upsert rest k e

/-- One iteration of the rule-based seeding loop: entries whose career id is
falsy (`if career_id:`) are skipped. -/
def seedRule (rule_weight : ℚ) (acc : List (String × CombinedEntry)) (rec : RuleRec) :
    List (String × CombinedEntry) :=
  if rec.career_id = "" then acc
  else upsert acc rec.career_id (seed_entry rule_weight rec)

/-- The in-place update applied to an existing accumulator when the ML list
mentions the same career id. -/
def apply_ml (ml_weight : ℚ) (rec : MLRec) (e : CombinedEntry) : CombinedEntry :=
  { e with
    ml_score := rec.confidence * 100
    combined_score := e.combined_score + rec.confidence * 100 * ml_weight }

/-- The fresh accumulator created for an ML-only career id. -/
def ml_entry (ml_weight : ℚ) (rec : MLRec) : CombinedEntry :=
  { career_id := rec.career_id
    rule_score := 0
    ml_score := rec.confidence * 100
    combined_score := rec.confidence * 100 * ml_weight
    match_score := 0 }

/-- One iteration of the ML merging loop: skip falsy ids, update an existing
accumulator in place, otherwise append a fresh one. -/
def addML (ml_weight : ℚ) (acc : List (String × CombinedEntry)) (rec : MLRec) :
    List (String × CombinedEntry) :=
  if rec.career_id = "" then acc
  else if (acc.lookup rec.career_id).isSome then
    acc.map (fun kv => if kv.1 = rec.career_id then (kv.1, apply_ml ml_weight rec kv.2) else kv)
  else acc ++ [(rec.career_id, ml_entry ml_weight rec)]

/-- `combine_predictions(rule_based, ml_based, rule_weight, ml_weight)`:
seed from the rule results, merge the ML results, stable-sort the dict values
(insertion order) descending by combined score, then overwrite `match_score`
with the combined score rounded to 2 decimals. -/
def combine_predictions (rule_based : List RuleRec) (ml_based : List MLRec)
    (rule_weight ml_weight : ℚ) : List CombinedEntry :=
  (((ml_based.foldl (addML ml_weight) (rule_based.foldl (seedRule rule_weight) [])).map
      (fun kv => kv.2)).insertionSort
    (fun a b => b.combined_score ≤ a.combined_score)).map
    (fun c => { c with match_score := pyRound c.combined_score 2 })

/-- The recommendations list of the route response: rule-based result dicts in
the fallback branch, combined dicts in the hybrid branch. -/
inductive Recommendations where
  | ruleOnly (results : List MatchResult)
  | hybrid (results : List CombinedEntry)

/-- Projection of a rule-based result to the fields `combine_predictions`
reads from it. -/
def ruleRecOfMatch (r : MatchResult) : RuleRec := ⟨r.career_id, r.match_score⟩

/-- Projection of an ML prediction to the fields `combine_predictions` reads
from it. -/
def mlRecOfPrediction (r : MLPrediction) : MLRec := ⟨r.career_id, r.confidence⟩

/-- The `/predict` route body (`predict_careers`): always computes the
rule-based results; consults the model exactly when `use_ml_model` is set and
a model is loaded, in which case the response is the combined list with
`method_used = "hybrid"` (the embedded `predict` swallows its own errors, so
the route-level `except` fallback is unreachable); otherwise the rule-based
list with `method_used = "rule_based"`. The `include_details` enrichment only
attaches extra display data and is omitted. Returns the recommendations, the
method string, and the (possibly updated) predictor state. -/
def predict_careers (matcher : CareerMatcher) (predictor : MLPredictor)
    (u : UserProfile) (top_k : ℕ) (use_ml_model : Bool) :
    Recommendations × String × MLPredictor :=
  let rule_based_results := get_top_careers matcher u top_k
  if use_ml_model && is_model_loaded predictor then
    let res := predict predictor u top_k
    (Recommendations.hybrid
        (combine_predictions (rule_based_results.map ruleRecOfMatch)
          (res.1.map mlRecOfPrediction) (2/5) (3/5)),
     "hybrid", res.2)
  else
    (Recommendations.ruleOnly rule_based_results, "rule_based", predictor)

/-! ## Backend predictor feature extraction
(`backend/app/models/career_predictor.py`) -/

/-- Python substring containment `pat in s`, computed over character lists. -/
def substrOf (pat s : String) : Bool :=
  s.toList.tails.any (fun t => pat.toList.isPrefixOf t)

/-- The backend `UserProfile` pydantic schema fields read during feature
extraction (`backend/app/models/schemas.py`). -/
structure BackendUserProfile where
  gender : Option String
  education_level : String
  ug_course : Option String
  specialization : Option String
  skills : List String
  interests : List String
  cgpa : Option ℚ
  certifications : List String

/-- A scikit-learn label encoder as bundled in the backend `encoders.pkl`. -/
structure SkLabelEncoder where
  classes : List String

/-- The additional encoders bundle (`self.encoders`), read with `.get`. -/
structure Encoders where
  le_course : Option SkLabelEncoder
  top_skills : List String
  top_interests : List String

/-- The backend `CareerPredictor` state components that feature extraction
reads. -/
structure CareerPredictor where
  feature_columns : Option (List String)
  encoders : Option Encoders

/-- The education-level encoding of `_extract_basic_features`. -/
def education_map : List (String × ℕ) :=
  [("high_school", 0), ("plus_two", 1), ("bachelors", 2), ("masters", 3), ("phd", 4)]

/-- `CareerPredictor._extract_basic_features`: education-level rank, CGPA
fraction (0.7 when the CGPA is falsy, i.e. absent or zero), skill count,
certification count. -/
def extract_basic_features (u : BackendUserProfile) : List ℚ :=
  [ ((education_map.lookup u.education_level).getD 2 : ℚ),
    (match u.cgpa with
     | some c => if c = 0 then 7/10 else c / 100
     | none => 7/10),
    (u.skills.length : ℚ),
    (u.certifications.length : ℚ) ]

/-- The gender map; `getattr(user_profile, 'gender', 'male')` yields the
profile's optional gender, and `str(None).lower() = "none"` falls through to
the map default 0. -/
def gender_map : List (String × ℕ) :=
  [("male", 0), ("female", 1), ("other", 2)]

/-- The `gender_encoded` feature value. -/
def encode_gender (g : Option String) : ℕ :=
  match g with
  | none => 0
  | some s => (gender_map.lookup s.toLower).getD 0

/-- The `ug_course_encoded` feature value: direct class match by index, then
a fuzzy lowercase substring match in either direction, else 0. A falsy course
(absent or empty string) leaves the value 0. -/
def encode_course (opt : Option SkLabelEncoder) (ug_course : Option String) : ℕ :=
  match opt, ug_course with
  | some le, some course =>
    if course = "" then 0
    else if course ∈ le.classes then le.classes.indexOf course
    else
      let course_lower := course.toLower
      match le.classes.findIdx? (fun cls =>
        substrOf course_lower cls.toLower || substrOf cls.toLower course_lower) with
      | some i => i
      | none => 0
  | _, _ => 0

/-- The sanitized training column name for a skill or interest:
`tag + item.replace(' ', '_').replace('-', '_')[:30]`. -/
def safe_feature_name (tag item : String) : String :=
  tag ++ (((item.replace " " "_").replace "-" "_").take 30)

/-- The skills / interests encoding loop: for each top training item whose
sanitized column exists, set the column to 1 exactly when some user entry
fuzzy-matches it (substring containment in either direction). -/
def apply_slot_updates (tag : String) (cols : List String) (top : List String)
    (user_lower : List String) (f : String → ℚ) : String → ℚ :=
  top.foldl (fun acc item =>
    let safe_name := safe_feature_name tag item
    if safe_name ∈ cols then
      Function.update acc safe_name
        (if user_lower.any (fun us => substrOf item us || substrOf us item) then 1 else 0)
    else acc) f

/-- The `cgpa` feature of the full path: `user_profile.cgpa or 70`, then
percentage `/100` when above 4 else 4-point `/4`. -/
def encode_cgpa (cgpa : Option ℚ) : ℚ :=
  let c : ℚ := match cgpa with
    | some c => if c = 0 then 70 else c
    | none => 70
  if 4 < c then c / 100 else c / 4

/-- `CareerPredictor._extract_features`: falls back to
`_extract_basic_features` when the feature columns or the encoders bundle are
falsy; otherwise builds the feature dict (initialized to 0 for every column)
and returns the values in column order. -/
def extract_features (cp : CareerPredictor) (u : BackendUserProfile) : List ℚ :=
  match cp.feature_columns, cp.encoders with
  | some cols, some encs =>
    if cols = [] then extract_basic_features u
    else
      let base : String → ℚ := fun _ => 0
      let f1 := if "gender_encoded" ∈ cols then
        Function.update base "gender_encoded" (encode_gender u.gender : ℚ) else base
      let f2 := if "ug_course_encoded" ∈ cols then
        Function.update f1 "ug_course_encoded" (encode_course encs.le_course u.ug_course : ℚ)
        else f1
      let f3 := if "cgpa" ∈ cols then Function.update f2 "cgpa" (encode_cgpa u.cgpa) else f2
      let f4 := if "has_certification" ∈ cols then
        Function.update f3 "has_certification" (if u.certifications = [] then 0 else 1) else f3
      let f5 := if "is_working" ∈ cols then Function.update f4 "is_working" 0 else f4
      let user_skills_lower := u.skills.map (fun s => s.toLower.trim)
      let f6 := apply_slot_updates "skill_" cols encs.top_skills user_skills_lower f5
      let user_interests_lower := u.interests.map (fun s => s.toLower.trim)
      let f7 := apply_slot_updates "interest_" cols encs.top_interests user_interests_lower f6
      cols.map f7
  | _, _ => extract_basic_features u

/-! ## Concrete fixtures -/

/-- The profile of the spec's concrete scenario: math 85, science 90,
english 75, GPA 3.7, programming 4, analytical_thinking 5, technology 5. -/
def profile3 : UserProfile :=
  { math_score := 85, science_score := 90, english_score := 75, gpa := 37/10,
    skills := [("programming", 4), ("analytical_thinking", 5)],
    interests := [("technology", 5)],
    academic_level := "undergraduate", certifications := [] }

/-- The catalog entry of the spec's concrete scenario. -/
def career3 : CareerDef :=
  { name := none, category := none, description := none,
    required_skills := [("programming", 4), ("analytical_thinking", 4)],
    required_interests := [("technology", 4)],
    academic_weights := some ⟨some (2/5), some (3/10), some (3/10)⟩,
    min_gpa := some 3 }

/-- A one-entry catalog holding the scenario career. -/
def matcher3 : CareerMatcher := ⟨[("software_engineer", career3)]⟩

/-- Numeric projection of a match result used by the concrete theorems. -/
def resultNumbers (r : MatchResult) : ℚ × ℚ × ℚ × ℚ :=
  (r.score_breakdown.academic, r.score_breakdown.skills, r.score_breakdown.interests,
   r.match_score)

theorem pyRound_eq_of_mul_eq {q : ℚ} {d : ℕ} {n : ℤ} (h : q * 10 ^ d = (n : ℚ)) :
    pyRound q d = (n : ℚ) / 10 ^ d := by
  unfold pyRound
  rw [h, pyRoundInt_intCast]

theorem scenario_academic : academic_subscore career3 profile3 = 2505/100 := by
  unfold academic_subscore
  rw [pyRound_eq_of_mul_eq (n := 2505)
    (by norm_num [profile3, career3, wMath, wScience, wEnglish])]
  norm_num

theorem scenario_skills : skills_subscore career3 profile3 = 36 := by
  have hd1 : dictGet profile3.skills "programming" = 4 := rfl
  have hd2 : dictGet profile3.skills "analytical_thinking" = 5 := rfl
  have hskill : tier_score 40 career3.required_skills profile3.skills = 36 := by
    norm_num [tier_score, career3, hd1, hd2, tier_contribution]
  unfold skills_subscore
  rw [hskill, show min (36:ℚ) 40 = 36 by norm_num,
    pyRound_eq_of_mul_eq (n := 3600) (by norm_num)]
  norm_num

theorem scenario_interests : interests_subscore career3 profile3 = 30 := by
  have hd3 : dictGet profile3.interests "technology" = 5 := rfl
  have hint : tier_score 30 career3.required_interests profile3.interests = 30 := by
    norm_num [tier_score, career3, hd3, tier_contribution]
  unfold interests_subscore
  rw [hint, show min (30:ℚ) 30 = 30 by norm_num,
    pyRound_eq_of_mul_eq (n := 3000) (by norm_num)]
  norm_num

/-- Evaluation of the scenario scorer run: the code yields academic 25.05,
skills 36, interests 30, and (with the +3 GPA bonus) final score 94.05. -/
theorem scenario_eval :
    (calculate_match_score matcher3 profile3 "software_engineer").map resultNumbers =
      some (2505/100, 36, 30, 9405/100) := by
  have hlook : matcher3.careers.lookup "software_engineer" = some career3 := rfl
  have htot : clamped_total career3 profile3 = 9405/100 := by
    unfold clamped_total adjusted_total
    rw [scenario_academic, scenario_skills, scenario_interests]
    have hgpa1 : ¬ (profile3.gpa < career3.min_gpa.getD (5/2)) := by
      norm_num [profile3, career3]
    have hgpa2 : career3.min_gpa.getD (5/2) + 1/2 ≤ profile3.gpa := by
      norm_num [profile3, career3]
    rw [if_neg hgpa1, if_pos hgpa2]
    norm_num
  have hms : pyRound (clamped_total career3 profile3) 2 = 9405/100 := by
    rw [htot, pyRound_eq_of_mul_eq (n := 9405) (by norm_num)]
    norm_num
  unfold calculate_match_score
  rw [hlook]
  norm_num [resultNumbers, scenario_academic, scenario_skills, scenario_interests, hms]

/-- C3 counterexample support (the claim asserts academic 24.15, subtotal
90.15, final 93.15; the code computes 25.05, 91.05 and 94.05 there). -/
theorem c3_counterexample :
    (calculate_match_score matcher3 profile3 "software_engineer").map resultNumbers ≠
      some (2415/100, 36, 30, 9315/100) := by
  rw [scenario_eval]
  simp only [ne_eq, Option.some.injEq, Prod.mk.injEq]
  norm_num

/-- C3, amended: at the spec's concrete scenario the scorer produces academic
sub-score 25.05, skills 36, interests 30, subtotal 91.05, and with the +3 GPA
bonus a final match score of 94.05 (the spec's 24.15 / 90.15 / 93.15 values
are arithmetic slips in the same formula). -/
theorem c3_amended :
    (calculate_match_score matcher3 profile3 "software_engineer").map resultNumbers =
      some (2505/100, 36, 30, 9405/100) ∧ (2505/100 + 36 + 30 : ℚ) = 9105/100 :=
  ⟨scenario_eval, by norm_num⟩

/-! ## Bounds of the score breakdown (C4) -/

theorem tier_contribution_nonneg (budget : ℚ) (hb : 0 ≤ budget) (n r u : ℕ) :
    0 ≤ tier_contribution budget n r u := by
  unfold tier_contribution
  split_ifs
  · exact mul_nonneg (div_nonneg (Nat.cast_nonneg u) (by norm_num))
      (div_nonneg hb (Nat.cast_nonneg n))
  · exact mul_nonneg (mul_nonneg (div_nonneg (Nat.cast_nonneg u) (Nat.cast_nonneg r))
      (div_nonneg hb (Nat.cast_nonneg n))) (by norm_num)
  · exact le_refl 0

theorem tier_score_nonneg (budget : ℚ) (hb : 0 ≤ budget)
    (req user : List (String × ℕ)) : 0 ≤ tier_score budget req user := by
  unfold tier_score
  apply List.sum_nonneg
  intro x hx
  obtain ⟨sr, _, rfl⟩ := List.mem_map.mp hx
  exact tier_contribution_nonneg budget hb _ _ _

theorem skills_subscore_bounds (career : CareerDef) (u : UserProfile) :
    0 ≤ skills_subscore career u ∧ skills_subscore career u ≤ 40 := by
  unfold skills_subscore
  constructor
  · have h0 : (0:ℚ) ≤ min (tier_score 40 career.required_skills u.skills) 40 :=
      le_min (tier_score_nonneg 40 (by norm_num) _ _) (by norm_num)
    exact_mod_cast intCast_le_pyRound (n := 0) 2 (by exact_mod_cast h0)
  · exact_mod_cast pyRound_le_intCast (n := 40) 2 (by exact_mod_cast min_le_right _ _)

theorem interests_subscore_bounds (career : CareerDef) (u : UserProfile) :
    0 ≤ interests_subscore career u ∧ interests_subscore career u ≤ 30 := by
  unfold interests_subscore
  constructor
  · have h0 : (0:ℚ) ≤ min (tier_score 30 career.required_interests u.interests) 30 :=
      le_min (tier_score_nonneg 30 (by norm_num) _ _) (by norm_num)
    exact_mod_cast intCast_le_pyRound (n := 0) 2 (by exact_mod_cast h0)
  · exact_mod_cast pyRound_le_intCast (n := 30) 2 (by exact_mod_cast min_le_right _ _)

theorem academic_subscore_bounds (career : CareerDef) (u : UserProfile)
    (hm0 : 0 ≤ u.math_score) (hm1 : u.math_score ≤ 100)
    (hs0 : 0 ≤ u.science_score) (hs1 : u.science_score ≤ 100)
    (he0 : 0 ≤ u.english_score) (he1 : u.english_score ≤ 100)
    (hwm : 0 ≤ wMath career) (hws : 0 ≤ wScience career) (hwe : 0 ≤ wEnglish career)
    (hsum : wMath career + wScience career + wEnglish career ≤ 1) :
    0 ≤ academic_subscore career u ∧ academic_subscore career u ≤ 30 := by
  unfold academic_subscore
  have hraw0 : (0:ℚ) ≤ (u.math_score / 100) * wMath career * 30 +
      (u.science_score / 100) * wScience career * 30 +
      (u.english_score / 100) * wEnglish career * 30 := by
    have t1 : (0:ℚ) ≤ (u.math_score / 100) * wMath career * 30 := by positivity
    have t2 : (0:ℚ) ≤ (u.science_score / 100) * wScience career * 30 := by positivity
    have t3 : (0:ℚ) ≤ (u.english_score / 100) * wEnglish career * 30 := by positivity
    linarith
  have hraw1 : (u.math_score / 100) * wMath career * 30 +
      (u.science_score / 100) * wScience career * 30 +
      (u.english_score / 100) * wEnglish career * 30 ≤ 30 := by
    have t1 : (u.math_score / 100) * wMath career * 30 ≤ wMath career * 30 := by
      have : u.math_score / 100 ≤ 1 := by linarith [div_le_one_of_le₀ hm1 (by norm_num : (0:ℚ) ≤ 100)]
      nlinarith
    have t2 : (u.science_score / 100) * wScience career * 30 ≤ wScience career * 30 := by
      have : u.science_score / 100 ≤ 1 := by linarith [div_le_one_of_le₀ hs1 (by norm_num : (0:ℚ) ≤ 100)]
      nlinarith
    have t3 : (u.english_score / 100) * wEnglish career * 30 ≤ wEnglish career * 30 := by
      have : u.english_score / 100 ≤ 1 := by linarith [div_le_one_of_le₀ he1 (by norm_num : (0:ℚ) ≤ 100)]
      nlinarith
    nlinarith
  constructor
  · exact_mod_cast intCast_le_pyRound (n := 0) 2 (by exact_mod_cast hraw0)
  · exact_mod_cast pyRound_le_intCast (n := 30) 2 (by exact_mod_cast hraw1)

theorem match_score_bounds (career : CareerDef) (u : UserProfile) :
    0 ≤ pyRound (clamped_total career u) 2 ∧ pyRound (clamped_total career u) 2 ≤ 100 := by
  unfold clamped_total
  constructor
  · exact_mod_cast intCast_le_pyRound (n := 0) 2 (by exact_mod_cast le_max_left 0 _)
  · refine le_trans (pyRound_le_intCast (n := 100) 2 ?_) (by norm_num)
    exact_mod_cast max_le (by norm_num) (min_le_left _ _)

/-- A profile with perfect scores, used to exhibit the unclamped academic
sub-score. -/
def profileW : UserProfile :=
  { math_score := 100, science_score := 100, english_score := 100, gpa := 4,
    skills := [], interests := [], academic_level := "undergraduate",
    certifications := [] }

/-- A catalog entry whose three non-negative academic weights are all 1 (they
need not sum to 1). -/
def careerW : CareerDef :=
  { name := none, category := none, description := none,
    required_skills := [], required_interests := [],
    academic_weights := some ⟨some 1, some 1, some 1⟩, min_gpa := some 0 }

/-- A one-entry catalog holding the weight-heavy career. -/
def matcherW : CareerMatcher := ⟨[("w", careerW)]⟩

/-- C4 counterexample support: with in-range profile fields and non-negative
weights (1, 1, 1) the academic sub-score is 90, which violates the claimed
bound academic ≤ 30 (the source never clamps the academic sub-score). -/
theorem c4_counterexample :
    (calculate_match_score matcherW profileW "w").map
      (fun r => r.score_breakdown.academic) = some 90 ∧ ¬ ((90:ℚ) ≤ 30) := by
  constructor
  · have hlook : matcherW.careers.lookup "w" = some careerW := rfl
    have hacad : academic_subscore careerW profileW = 90 := by
      unfold academic_subscore
      rw [pyRound_eq_of_mul_eq (n := 9000)
        (by norm_num [profileW, careerW, wMath, wScience, wEnglish])]
      norm_num
    unfold calculate_match_score
    rw [hlook]
    simp [hacad]
  · norm_num

/-- C4, amended: for in-range profile fields and a catalog entry with
non-negative academic weights, the skills sub-score lies in [0, 40], the
interests sub-score in [0, 30] and the final match score in [0, 100]
unconditionally; the academic sub-score is always non-negative, and lies in
[0, 30] provided the three weights sum to at most 1 (without that proviso it
only satisfies 0 ≤ academic, as the counterexample shows). -/
theorem c4_amended (m : CareerMatcher) (u : UserProfile) (career_id : String)
    (career : CareerDef) (r : MatchResult)
    (hlook : m.careers.lookup career_id = some career)
    (hres : calculate_match_score m u career_id = some r)
    (hm0 : 0 ≤ u.math_score) (hm1 : u.math_score ≤ 100)
    (hs0 : 0 ≤ u.science_score) (hs1 : u.science_score ≤ 100)
    (he0 : 0 ≤ u.english_score) (he1 : u.english_score ≤ 100)
    (hwm : 0 ≤ wMath career) (hws : 0 ≤ wScience career) (hwe : 0 ≤ wEnglish career)
    (hsum : wMath career + wScience career + wEnglish career ≤ 1) :
    (0 ≤ r.score_breakdown.academic ∧ r.score_breakdown.academic ≤ 30) ∧
    (0 ≤ r.score_breakdown.skills ∧ r.score_breakdown.skills ≤ 40) ∧
    (0 ≤ r.score_breakdown.interests ∧ r.score_breakdown.interests ≤ 30) ∧
    (0 ≤ r.match_score ∧ r.match_score ≤ 100) := by
  unfold calculate_match_score at hres
  rw [hlook] at hres
  obtain rfl : _ = r := Option.some.inj hres
  exact ⟨academic_subscore_bounds career u hm0 hm1 hs0 hs1 he0 he1 hwm hws hwe hsum,
    skills_subscore_bounds career u, interests_subscore_bounds career u,
    match_score_bounds career u⟩

/-- Witness for `c4_amended` at the concrete scenario fixture. -/
theorem c4_amended_witness :
    ∃ r, calculate_match_score matcher3 profile3 "software_engineer" = some r ∧
      (0 ≤ r.score_breakdown.academic ∧ r.score_breakdown.academic ≤ 30) ∧
      (0 ≤ r.score_breakdown.skills ∧ r.score_breakdown.skills ≤ 40) ∧
      (0 ≤ r.score_breakdown.interests ∧ r.score_breakdown.interests ≤ 30) ∧
      (0 ≤ r.match_score ∧ r.match_score ≤ 100) := by
  have hlook : matcher3.careers.lookup "software_engineer" = some career3 := rfl
  have hres : ∃ r, calculate_match_score matcher3 profile3 "software_engineer" = some r := by
    unfold calculate_match_score
    rw [hlook]
    exact ⟨_, rfl⟩
  obtain ⟨r, hr⟩ := hres
  exact ⟨r, hr, c4_amended matcher3 profile3 "software_engineer" career3 r hlook hr
    (by norm_num [profile3]) (by norm_num [profile3]) (by norm_num [profile3])
    (by norm_num [profile3]) (by norm_num [profile3]) (by norm_num [profile3])
    (by norm_num [career3, wMath]) (by norm_num [career3, wScience])
    (by norm_num [career3, wEnglish])
    (by norm_num [career3, wMath, wScience, wEnglish])⟩

/-! ## Monotonicity of the skills sub-score (C6) -/

theorem tier_contribution_full (budget : ℚ) (n r : ℕ) {u : ℕ} (h : r ≤ u) :
    tier_contribution budget n r u = (u:ℚ) / 5 * (budget / (n:ℚ)) := by
  unfold tier_contribution
  rw [if_pos h]

theorem tier_contribution_half (budget : ℚ) (n r : ℕ) {u : ℕ} (h : ¬ r ≤ u) (hu : 0 < u) :
    tier_contribution budget n r u = (u:ℚ) / (r:ℚ) * (budget / (n:ℚ)) * (1/2) := by
  unfold tier_contribution
  rw [if_neg h, if_pos hu]

theorem tier_contribution_zero (budget : ℚ) (n r : ℕ) {u : ℕ} (h : ¬ r ≤ u) (hu : ¬ 0 < u) :
    tier_contribution budget n r u = 0 := by
  unfold tier_contribution
  rw [if_neg h, if_neg hu]

theorem tier_contribution_mono (budget : ℚ) (hb : 0 ≤ budget) (n r : ℕ) {u v : ℕ}
    (huv : u ≤ v) : tier_contribution budget n r u ≤ tier_contribution budget n r v := by
  have hc : (0:ℚ) ≤ budget / (n:ℚ) := div_nonneg hb (Nat.cast_nonneg n)
  by_cases hru : r ≤ u
  · -- full credit on both sides, monotone in the rating
    have hrv : r ≤ v := le_trans hru huv
    rw [tier_contribution_full budget n r hru, tier_contribution_full budget n r hrv]
    have : (u:ℚ) ≤ (v:ℚ) := by exact_mod_cast huv
    gcongr
  · by_cases hu : 0 < u
    · by_cases hrv : r ≤ v
      · -- half-credit tier crossing into the full-credit tier
        have hur : u + 1 ≤ r := by omega
        have hrpos : (0:ℚ) < (r:ℚ) := by
          have : 0 < r := by omega
          exact_mod_cast this
        rw [tier_contribution_half budget n r hru hu, tier_contribution_full budget n r hrv]
        have key : (u:ℚ) / (r:ℚ) * (1/2) ≤ (v:ℚ) / 5 := by
          rw [div_mul_eq_mul_div, div_le_div_iff (by linarith) (by norm_num)]
          have hU : (u:ℚ) + 1 ≤ (r:ℚ) := by exact_mod_cast hur
          have hR : (r:ℚ) ≤ (v:ℚ) := by exact_mod_cast hrv
          have hU1 : (1:ℚ) ≤ (u:ℚ) := by exact_mod_cast hu
          nlinarith [sq_nonneg ((r:ℚ) - 1), sq_nonneg ((r:ℚ) - 2)]
        calc (u:ℚ) / (r:ℚ) * (budget / (n:ℚ)) * (1/2)
            = ((u:ℚ) / (r:ℚ) * (1/2)) * (budget / (n:ℚ)) := by ring
          _ ≤ ((v:ℚ) / 5) * (budget / (n:ℚ)) := mul_le_mul_of_nonneg_right key hc
      · -- half credit on both sides, monotone in the rating
        have hv : 0 < v := lt_of_lt_of_le hu huv
        rw [tier_contribution_half budget n r hru hu, tier_contribution_half budget n r hrv hv]
        have hcast : (u:ℚ) ≤ (v:ℚ) := by exact_mod_cast huv
        have hrpos : (0:ℚ) ≤ (r:ℚ) := Nat.cast_nonneg r
        gcongr
    · -- no rating on the left: zero versus non-negative
      rw [tier_contribution_zero budget n r hru hu]
      exact tier_contribution_nonneg budget hb n r v

theorem tier_score_mono (budget : ℚ) (hb : 0 ≤ budget) (req : List (String × ℕ))
    (user user' : List (String × ℕ))
    (h : ∀ sr ∈ req, dictGet user sr.1 ≤ dictGet user' sr.1) :
    tier_score budget req user ≤ tier_score budget req user' := by
  unfold tier_score
  apply List.sum_le_sum
  intro sr hsr
  exact tier_contribution_mono budget hb _ _ (h sr hsr)

theorem skills_subscore_mono (career : CareerDef) (u : UserProfile)
    (sk' : List (String × ℕ))
    (h : ∀ sr ∈ career.required_skills, dictGet u.skills sr.1 ≤ dictGet sk' sr.1) :
    skills_subscore career u ≤ skills_subscore career { u with skills := sk' } := by
  unfold skills_subscore
  apply pyRound_mono
  exact min_le_min (tier_score_mono 40 (by norm_num) _ _ _ h) (le_refl 40)

/-- C6: raising a single skill rating that sits below its required level
(holding every other profile field fixed) never decreases the skills
sub-score, including when the raise crosses from the half-credit tier into
the full-credit tier. -/
theorem c6_skill_monotone (m : CareerMatcher) (career_id : String) (career : CareerDef)
    (u : UserProfile) (sk' : List (String × ℕ)) (s : String) (rl : ℕ)
    (res res' : MatchResult)
    (hlook : m.careers.lookup career_id = some career)
    (hmem : (s, rl) ∈ career.required_skills)
    (hbelow : dictGet u.skills s < rl)
    (hup : dictGet u.skills s < dictGet sk' s)
    (hother : ∀ t, t ≠ s → dictGet sk' t = dictGet u.skills t)
    (hres : calculate_match_score m u career_id = some res)
    (hres' : calculate_match_score m { u with skills := sk' } career_id = some res') :
    res.score_breakdown.skills ≤ res'.score_breakdown.skills := by
  unfold calculate_match_score at hres hres'
  rw [hlook] at hres hres'
  obtain rfl := Option.some.inj hres
  obtain rfl := Option.some.inj hres'
  apply skills_subscore_mono
  intro sr hsr
  by_cases hts : sr.1 = s
  · rw [hts]
    exact le_of_lt hup
  · rw [hother sr.1 hts]

/-- The witness profile for `c6_skill_monotone`: programming rated 2, below
the required 4. -/
def profileC6 : UserProfile :=
  { math_score := 85, science_score := 90, english_score := 75, gpa := 37/10,
    skills := [("programming", 2), ("analytical_thinking", 5)],
    interests := [("technology", 5)],
    academic_level := "undergraduate", certifications := [] }

/-- The raised skills dict for the witness: programming raised to 3. -/
def skillsC6 : List (String × ℕ) := [("programming", 3), ("analytical_thinking", 5)]

/-- Witness for `c6_skill_monotone` at a concrete raise 2 → 3 below the
required level 4. -/
theorem c6_skill_monotone_witness :
    ∃ res res', calculate_match_score matcher3 profileC6 "software_engineer" = some res ∧
      calculate_match_score matcher3 { profileC6 with skills := skillsC6 }
        "software_engineer" = some res' ∧
      res.score_breakdown.skills ≤ res'.score_breakdown.skills := by
  have hlook : matcher3.careers.lookup "software_engineer" = some career3 := rfl
  have hres : ∃ res, calculate_match_score matcher3 profileC6 "software_engineer" = some res := by
    unfold calculate_match_score
    rw [hlook]
    exact ⟨_, rfl⟩
  have hres' : ∃ res', calculate_match_score matcher3 { profileC6 with skills := skillsC6 }
      "software_engineer" = some res' := by
    unfold calculate_match_score
    rw [hlook]
    exact ⟨_, rfl⟩
  obtain ⟨res, hr⟩ := hres
  obtain ⟨res', hr'⟩ := hres'
  refine ⟨res, res', hr, hr', ?_⟩
  apply c6_skill_monotone matcher3 "software_engineer" career3 profileC6 skillsC6
    "programming" 4 res res' hlook (by simp [career3]) (by decide) (by decide) ?_ hr hr'
  intro t ht
  have hbeq : (t == "programming") = false := beq_eq_false_iff_ne.mpr ht
  simp [dictGet, skillsC6, profileC6, List.lookup, hbeq]

/-! ## Model adapter failure handling and state (C1, C9) -/

/-- A profile with empty ratings, used where the profile content is
irrelevant. -/
def profile0 : UserProfile :=
  { math_score := 0, science_score := 0, english_score := 0, gpa := 0,
    skills := [], interests := [], academic_level := "", certifications := [] }

/-- A predictor with no model loaded. -/
def mlNone : MLPredictor :=
  { model := none, label_encoder := none, feature_names := none, scaler := none }

/-- A loaded classifier whose probability prediction always raises. -/
def modelErr : MLModel := ⟨fun _ => Except.error "bad feature shape"⟩

/-- A predictor with a loaded but failing model and no label encoder. -/
def mlErr : MLPredictor :=
  { model := some modelErr, label_encoder := none, feature_names := some [],
    scaler := none }

/-- An empty catalog. -/
def matcher0 : CareerMatcher := ⟨[]⟩

/-- C1: `MLPredictor.predict` returns the empty list whenever no model is
loaded, and whenever the internal pipeline (scaling, probability prediction,
top-k decoding) fails; being a total function of the embedded state it never
propagates an exception. -/
theorem c1_predict_swallows_failures (s : MLPredictor) (u : UserProfile) (k : ℕ) :
    (s.model = none → (predict s u k).1 = []) ∧
    (∀ m e, s.model = some m →
      predict_core m (prepare_features s u).2 (prepare_features s u).1 k =
        Except.error e →
      (predict s u k).1 = []) := by
  constructor
  · intro h
    unfold predict
    rw [h]
  · intro m e hm hcore
    unfold predict
    rw [hm]
    simp only [hcore]

/-- Witness for `c1_predict_swallows_failures`: the unloaded predictor and a
predictor whose probability prediction raises both yield `[]`. -/
theorem c1_witness : (predict mlNone profile0 3).1 = [] ∧ (predict mlErr profile0 3).1 = [] :=
  ⟨(c1_predict_swallows_failures mlNone profile0 3).1 rfl,
   (c1_predict_swallows_failures mlErr profile0 3).2 modelErr "bad feature shape" rfl rfl⟩

theorem prepare_features_snd (s : MLPredictor) (u : UserProfile) :
    (prepare_features s u).2 =
      { s with feature_names := some (s.feature_names.getD default_feature_names) } := by
  cases s with
  | mk mo le fn sc => cases fn <;> rfl

theorem predict_snd (s : MLPredictor) (u : UserProfile) (k : ℕ) :
    (predict s u k).2 = match s.model with
      | none => s
      | some _ => (prepare_features s u).2 := by
  unfold predict
  cases hm : s.model with
  | none => simp
  | some m =>
    simp only []
    cases hcore : predict_core m (prepare_features s u).2 (prepare_features s u).1 k <;>
      simp [hcore]

/-- A predictor with a loaded model and no bundled feature schema. -/
def mlMut : MLPredictor :=
  { model := some modelErr, label_encoder := none, feature_names := none, scaler := none }

/-- C9 counterexample support: a `predict` call on an artifact without a
feature schema mutates the adapter state, caching the default schema into
`feature_names`. -/
theorem c9_counterexample :
    mlMut.feature_names = none ∧
    (predict mlMut profile0 5).2.feature_names = some default_feature_names ∧
    some default_feature_names ≠ (none : Option (List String)) :=
  ⟨rfl, rfl, by simp⟩

/-- C9, amended: the request-path operations never mutate the catalog or the
loaded model, label space and scaler (the matcher operations are pure
functions of the matcher state, which the embedding reflects); the single
exception is `predict`, which caches the default feature-name schema into the
adapter state on first use when the artifact carried none, and leaves the
state untouched in every other situation. -/
theorem c9_amended (s : MLPredictor) (u : UserProfile) (k : ℕ) :
    (predict s u k).2.model = s.model ∧
    (predict s u k).2.label_encoder = s.label_encoder ∧
    (predict s u k).2.scaler = s.scaler ∧
    (s.model = none → (predict s u k).2 = s) ∧
    (s.feature_names ≠ none → (predict s u k).2.feature_names = s.feature_names) ∧
    (∀ m, s.model = some m → s.feature_names = none →
      (predict s u k).2.feature_names = some default_feature_names) := by
  obtain ⟨mo, le, fn, sc⟩ := s
  cases mo with
  | none => simp [predict]
  | some m =>
    cases fn with
    | none => simp [predict_snd, prepare_features_snd]
    | some names => simp [predict_snd, prepare_features_snd]

/-- Witness for `c9_amended` at the mutating fixture. -/
theorem c9_amended_witness :
    (predict mlMut profile0 5).2.model = mlMut.model ∧
    (predict mlMut profile0 5).2.feature_names = some default_feature_names :=
  ⟨(c9_amended mlMut profile0 5).1,
   (c9_amended mlMut profile0 5).2.2.2.2.2 modelErr rfl rfl⟩

/-! ## The prediction route (C2) -/

/-- C2 counterexample support: with a loaded model whose prediction pipeline
fails, `predict` returns zero predictions yet the route still reports
`method_used = "hybrid"` (the claim demands "rule_based" whenever the model
returns no predictions). -/
theorem c2_counterexample :
    (predict mlErr profile0 5).1 = [] ∧ is_model_loaded mlErr = true ∧
    (predict_careers matcher0 mlErr profile0 5 true).2.1 = "hybrid" ∧
    ("hybrid" : String) ≠ "rule_based" := by
  exact ⟨rfl, rfl, rfl, by decide⟩

/-- C2, amended: the route reports `method_used = "hybrid"` exactly when the
model was requested and is loaded (i.e. consulted), regardless of how many
predictions it returned; whenever it was not consulted — in particular
whenever the adapter reports unavailable — the returned list is identical to
`get_top_careers(profile, k)`. -/
theorem c2_amended (matcher : CareerMatcher) (predictor : MLPredictor) (u : UserProfile)
    (k : ℕ) (use_ml_model : Bool) :
    ((predict_careers matcher predictor u k use_ml_model).2.1 = "hybrid" ↔
      use_ml_model = true ∧ is_model_loaded predictor = true) ∧
    (¬(use_ml_model = true ∧ is_model_loaded predictor = true) →
      (predict_careers matcher predictor u k use_ml_model).1 =
        Recommendations.ruleOnly (get_top_careers matcher u k)) := by
  unfold predict_careers
  by_cases h : (use_ml_model && is_model_loaded predictor) = true
  · rw [if_pos h]
    have hab : use_ml_model = true ∧ is_model_loaded predictor = true := by
      simpa using h
    exact ⟨⟨fun _ => hab, fun _ => rfl⟩, fun hc => absurd hab hc⟩
  · rw [if_neg h]
    constructor
    · constructor
      · intro habs
        have hstr : ("rule_based" : String) = "hybrid" := habs
        exact absurd hstr (by decide)
      · intro hc
        exact absurd (by simp [hc.1, hc.2] :
          (use_ml_model && is_model_loaded predictor) = true) h
    · intro _
      rfl

/-- Witness for `c2_amended`: with no model loaded the route returns exactly
the rule-based list and does not report "hybrid". -/
theorem c2_amended_witness :
    (predict_careers matcher0 mlNone profile0 5 true).1 =
      Recommendations.ruleOnly (get_top_careers matcher0 profile0 5) ∧
    ¬ ((predict_careers matcher0 mlNone profile0 5 true).2.1 = "hybrid") := by
  constructor
  · exact (c2_amended matcher0 mlNone profile0 5 true).2
      (by rintro ⟨h1, h2⟩; exact absurd h2 (by decide))
  · intro habs
    have := (c2_amended matcher0 mlNone profile0 5 true).1.mp habs
    exact absurd this.2 (by decide)

/-! ## Fusion properties (C5, C10) -/

theorem mem_upsert {l : List (String × CombinedEntry)} {k : String} {e : CombinedEntry}
    {kv : String × CombinedEntry} (h : kv ∈ upsert l k e) : kv = (k, e) ∨ kv ∈ l := by
  induction l with
  | nil => simpa [upsert] using h
  | cons kv0 rest ih =>
    unfold upsert at h
    by_cases hk : kv0.1 = k
    · rw [if_pos hk] at h
      rcases List.mem_cons.mp h with h1 | h1
      · left
        rw [h1, hk]
      · right
        exact List.mem_cons_of_mem _ h1
    · rw [if_neg hk] at h
      rcases List.mem_cons.mp h with h1 | h1
      · right
        exact h1 ▸ List.mem_cons_self _ _
      · rcases ih h1 with h2 | h2
        · exact Or.inl h2
        · exact Or.inr (List.mem_cons_of_mem _ h2)

theorem foldl_seedRule_pres (rule_w : ℚ) (P : String × CombinedEntry → Prop)
    (hseed : ∀ rec : RuleRec, rec.career_id ≠ "" → P (rec.career_id, seed_entry rule_w rec)) :
    ∀ (R : List RuleRec) (acc : List (String × CombinedEntry)),
      (∀ kv ∈ acc, P kv) → ∀ kv ∈ R.foldl (seedRule rule_w) acc, P kv := by
  intro R
  induction R with
  | nil => exact fun acc hacc kv hkv => hacc kv hkv
  | cons rec R ih =>
    intro acc hacc kv hkv
    rw [List.foldl_cons] at hkv
    apply ih _ _ kv hkv
    intro kv' hkv'
    unfold seedRule at hkv'
    by_cases hid : rec.career_id = ""
    · rw [if_pos hid] at hkv'
      exact hacc kv' hkv'
    · rw [if_neg hid] at hkv'
      rcases mem_upsert hkv' with h1 | h1
      · rw [h1]
        exact hseed rec hid
      · exact hacc kv' h1

theorem foldl_addML_pres (ml_w : ℚ) (P : String × CombinedEntry → Prop)
    (hupd : ∀ (rec : MLRec) (k : String) (e : CombinedEntry),
      P (k, e) → P (k, apply_ml ml_w rec e))
    (hnew : ∀ rec : MLRec, rec.career_id ≠ "" → P (rec.career_id, ml_entry ml_w rec)) :
    ∀ (M : List MLRec) (acc : List (String × CombinedEntry)),
      (∀ kv ∈ acc, P kv) → ∀ kv ∈ M.foldl (addML ml_w) acc, P kv := by
  intro M
  induction M with
  | nil => exact fun acc hacc kv hkv => hacc kv hkv
  | cons rec M ih =>
    intro acc hacc kv hkv
    rw [List.foldl_cons] at hkv
    apply ih _ _ kv hkv
    intro kv' hkv'
    unfold addML at hkv'
    by_cases hid : rec.career_id = ""
    · rw [if_pos hid] at hkv'
      exact hacc kv' hkv'
    · rw [if_neg hid] at hkv'
      by_cases hlk : (acc.lookup rec.career_id).isSome = true
      · rw [if_pos hlk] at hkv'
        rcases List.mem_map.mp hkv' with ⟨kv0, hkv0, heq⟩
        by_cases hk : kv0.1 = rec.career_id
        · rw [if_pos hk] at heq
          rw [← heq]
          exact hupd rec kv0.1 kv0.2 (hacc kv0 hkv0)
        · rw [if_neg hk] at heq
          rw [← heq]
          exact hacc kv0 hkv0
      · rw [if_neg hlk] at hkv'
        rcases List.mem_append.mp hkv' with h1 | h1
        · exact hacc kv' h1
        · rw [List.mem_singleton.mp h1]
          exact hnew rec hid

theorem combine_mem_iff (R : List RuleRec) (M : List MLRec) (rule_w ml_w : ℚ)
    (e : CombinedEntry) :
    e ∈ combine_predictions R M rule_w ml_w ↔
      ∃ kv ∈ M.foldl (addML ml_w) (R.foldl (seedRule rule_w) []),
        e = { kv.2 with match_score := pyRound kv.2.combined_score 2 } := by
  unfold combine_predictions
  rw [List.mem_map]
  constructor
  · rintro ⟨c, hc, rfl⟩
    have hc2 := (List.Perm.mem_iff (List.perm_insertionSort _ _)).mp hc
    rcases List.mem_map.mp hc2 with ⟨kv, hkv, rfl⟩
    exact ⟨kv, hkv, rfl⟩
  · rintro ⟨kv, hkv, rfl⟩
    refine ⟨kv.2, ?_, rfl⟩
    exact (List.Perm.mem_iff (List.perm_insertionSort _ _)).mpr (List.mem_map_of_mem _ hkv)

theorem combine_assoc_wf (R : List RuleRec) (M : List MLRec) (rule_w ml_w : ℚ) :
    ∀ kv ∈ M.foldl (addML ml_w) (R.foldl (seedRule rule_w) []),
      kv.1 ≠ "" ∧ kv.2.career_id = kv.1 := by
  apply foldl_addML_pres ml_w (fun kv => kv.1 ≠ "" ∧ kv.2.career_id = kv.1)
  · exact fun rec k e h => ⟨h.1, h.2⟩
  · exact fun rec h => ⟨h, rfl⟩
  · apply foldl_seedRule_pres rule_w (fun kv => kv.1 ≠ "" ∧ kv.2.career_id = kv.1)
    · exact fun rec h => ⟨h, rfl⟩
    · simp

theorem foldl_seedRule_filter (rule_w : ℚ) :
    ∀ (R : List RuleRec) (acc : List (String × CombinedEntry)),
      R.foldl (seedRule rule_w) acc =
        (R.filter (fun r => r.career_id != "")).foldl (seedRule rule_w) acc := by
  intro R
  induction R with
  | nil => exact fun acc => rfl
  | cons rec R ih =>
    intro acc
    by_cases hid : rec.career_id = ""
    · rw [List.foldl_cons,
        show seedRule rule_w acc rec = acc from by unfold seedRule; rw [if_pos hid],
        show (rec :: R).filter (fun r => r.career_id != "") =
          R.filter (fun r => r.career_id != "") from by simp [List.filter_cons, hid]]
      exact ih acc
    · rw [List.foldl_cons,
        show (rec :: R).filter (fun r => r.career_id != "") =
          rec :: R.filter (fun r => r.career_id != "") from by simp [List.filter_cons, hid],
        List.foldl_cons]
      exact ih _

theorem foldl_addML_filter (ml_w : ℚ) :
    ∀ (M : List MLRec) (acc : List (String × CombinedEntry)),
      M.foldl (addML ml_w) acc =
        (M.filter (fun rec => rec.career_id != "")).foldl (addML ml_w) acc := by
  intro M
  induction M with
  | nil => exact fun acc => rfl
  | cons rec M ih =>
    intro acc
    by_cases hid : rec.career_id = ""
    · rw [List.foldl_cons,
        show addML ml_w acc rec = acc from by unfold addML; rw [if_pos hid],
        show (rec :: M).filter (fun rec => rec.career_id != "") =
          M.filter (fun rec => rec.career_id != "") from by simp [List.filter_cons, hid]]
      exact ih acc
    · rw [List.foldl_cons,
        show (rec :: M).filter (fun rec => rec.career_id != "") =
          rec :: M.filter (fun rec => rec.career_id != "") from by simp [List.filter_cons, hid],
        List.foldl_cons]
      exact ih _

/-- C10: `combine_predictions` silently drops every input entry with a missing
or empty career id — no output entry carries an empty id, and the result is
unchanged if such entries are filtered from both inputs beforehand. -/
theorem c10_combine_drops_empty (R : List RuleRec) (M : List MLRec) (rule_w ml_w : ℚ) :
    (∀ e ∈ combine_predictions R M rule_w ml_w, e.career_id ≠ "") ∧
    combine_predictions R M rule_w ml_w =
      combine_predictions (R.filter (fun r => r.career_id != ""))
        (M.filter (fun rec => rec.career_id != "")) rule_w ml_w := by
  constructor
  · intro e he
    rcases (combine_mem_iff R M rule_w ml_w e).mp he with ⟨kv, hkv, rfl⟩
    have hw := combine_assoc_wf R M rule_w ml_w kv hkv
    show kv.2.career_id ≠ ""
    rw [hw.2]
    exact hw.1
  · unfold combine_predictions
    rw [← foldl_seedRule_filter, ← foldl_addML_filter]

/-- Witness for `c10_combine_drops_empty` at concrete inputs containing an
empty-id entry. -/
theorem c10_witness :
    (∀ e ∈ combine_predictions [⟨"", 50⟩] [] (2/5) (3/5), e.career_id ≠ "") ∧
    combine_predictions [⟨"", 50⟩] [] (2/5) (3/5) =
      combine_predictions ([⟨"", 50⟩].filter (fun r => r.career_id != ""))
        (([] : List MLRec).filter (fun rec => rec.career_id != "")) (2/5) (3/5) :=
  c10_combine_drops_empty [⟨"", 50⟩] [] (2/5) (3/5)

theorem lookup_append_none {l1 l2 : List (String × CombinedEntry)} {a : String}
    (h : l1.lookup a = none) : (l1 ++ l2).lookup a = l2.lookup a := by
  induction l1 with
  | nil => simp
  | cons kv rest ih =>
    obtain ⟨k, b⟩ := kv
    rw [List.cons_append, List.lookup_cons]
    rw [List.lookup_cons] at h
    cases hbeq : a == k with
    | true => rw [hbeq] at h; exact absurd h (by simp)
    | false =>
      rw [hbeq] at h
      exact ih h

theorem lookup_singleton_ne {k a : String} {e : CombinedEntry} (h : a ≠ k) :
    ([(k, e)] : List (String × CombinedEntry)).lookup a = none := by
  rw [List.lookup_cons]
  have hbeq : (a == k) = false := beq_eq_false_iff_ne.mpr h
  rw [hbeq]
  rfl

theorem foldl_addML_fresh (ml_w : ℚ) (P : String × CombinedEntry → Prop)
    (hnew : ∀ rec : MLRec, rec.career_id ≠ "" → P (rec.career_id, ml_entry ml_w rec)) :
    ∀ (M : List MLRec) (acc : List (String × CombinedEntry)),
      (∀ kv ∈ acc, P kv) →
      (∀ rec ∈ M, rec.career_id ≠ "" → acc.lookup rec.career_id = none) →
      (M.Pairwise fun a b => a.career_id ≠ b.career_id) →
      ∀ kv ∈ M.foldl (addML ml_w) acc, P kv := by
  intro M
  induction M with
  | nil => exact fun acc hacc _ _ kv hkv => hacc kv hkv
  | cons rec M ih =>
    intro acc hacc hfresh hpw kv hkv
    rw [List.foldl_cons] at hkv
    have hpw' := List.pairwise_cons.mp hpw
    by_cases hid : rec.career_id = ""
    · rw [show addML ml_w acc rec = acc from by unfold addML; rw [if_pos hid]] at hkv
      exact ih acc hacc (fun r hr h => hfresh r (List.mem_cons_of_mem _ hr) h) hpw'.2 kv hkv
    · have hlk : acc.lookup rec.career_id = none := hfresh rec (List.mem_cons_self _ _) hid
      have haddml : addML ml_w acc rec = acc ++ [(rec.career_id, ml_entry ml_w rec)] := by
        unfold addML
        rw [if_neg hid, hlk]
        rfl
      rw [haddml] at hkv
      refine ih _ ?_ ?_ hpw'.2 kv hkv
      · intro kv' hkv'
        rcases List.mem_append.mp hkv' with h1 | h1
        · exact hacc kv' h1
        · rw [List.mem_singleton.mp h1]
          exact hnew rec hid
      · intro r hr hrne
        rw [lookup_append_none (hfresh r (List.mem_cons_of_mem _ hr) hrne)]
        exact lookup_singleton_ne (Ne.symm (hpw'.1 r hr))

theorem keys_map_update (acc : List (String × CombinedEntry)) (cid : String)
    (f : CombinedEntry → CombinedEntry) :
    (acc.map (fun kv => if kv.1 = cid then (kv.1, f kv.2) else kv)).map Prod.fst =
      acc.map Prod.fst := by
  induction acc with
  | nil => rfl
  | cons kv rest ih =>
    simp only [List.map_cons, ih]
    split_ifs <;> simp

theorem lookup_isSome_mem_keys (l : List (String × CombinedEntry)) (k : String)
    (h : (l.lookup k).isSome = true) : k ∈ l.map Prod.fst := by
  induction l with
  | nil => simp at h
  | cons kv rest ih =>
    obtain ⟨k0, e0⟩ := kv
    rw [List.lookup_cons] at h
    cases hbeq : k == k0 with
    | true =>
      simp only [List.map_cons, List.mem_cons]
      exact Or.inl (eq_of_beq hbeq)
    | false =>
      rw [hbeq] at h
      simp only [List.map_cons, List.mem_cons]
      exact Or.inr (ih h)

theorem mem_keys_upsert (l : List (String × CombinedEntry)) (k : String) (e : CombinedEntry)
    (a : String) : a ∈ (upsert l k e).map Prod.fst ↔ a = k ∨ a ∈ l.map Prod.fst := by
  induction l with
  | nil => simp [upsert]
  | cons kv rest ih =>
    unfold upsert
    by_cases hk : kv.1 = k
    · rw [if_pos hk]
      simp [hk]
    · rw [if_neg hk]
      simp only [List.map_cons, List.mem_cons, ih]
      tauto

theorem mem_keys_foldl_seed (rule_w : ℚ) :
    ∀ (R : List RuleRec) (acc : List (String × CombinedEntry)) (a : String),
      a ∈ (R.foldl (seedRule rule_w) acc).map Prod.fst ↔
        a ∈ acc.map Prod.fst ∨ ∃ r ∈ R, r.career_id = a ∧ r.career_id ≠ "" := by
  intro R
  induction R with
  | nil => simp
  | cons rec R ih =>
    intro acc a
    rw [List.foldl_cons, ih]
    unfold seedRule
    by_cases hid : rec.career_id = ""
    · rw [if_pos hid]
      simp only [List.mem_cons]
      constructor
      · rintro (h | ⟨r, hr, h1, h2⟩)
        · exact Or.inl h
        · exact Or.inr ⟨r, Or.inr hr, h1, h2⟩
      · rintro (h | ⟨r, rfl | hr, h1, h2⟩)
        · exact Or.inl h
        · exact absurd hid h2
        · exact Or.inr ⟨r, hr, h1, h2⟩
    · rw [if_neg hid]
      simp only [List.mem_cons]
      constructor
      · rintro (h | ⟨r, hr, h1, h2⟩)
        · rcases (mem_keys_upsert acc rec.career_id (seed_entry rule_w rec) a).mp h with h3 | h3
          · exact Or.inr ⟨rec, Or.inl rfl, h3.symm, hid⟩
          · exact Or.inl h3
        · exact Or.inr ⟨r, Or.inr hr, h1, h2⟩
      · rintro (h | ⟨r, rfl | hr, h1, h2⟩)
        · exact Or.inl ((mem_keys_upsert acc rec.career_id (seed_entry rule_w rec) a).mpr
            (Or.inr h))
        · exact Or.inl ((mem_keys_upsert acc r.career_id (seed_entry rule_w r) a).mpr
            (Or.inl h1.symm))
        · exact Or.inr ⟨r, hr, h1, h2⟩

theorem mem_keys_addML (ml_w : ℚ) (acc : List (String × CombinedEntry)) (rec : MLRec)
    (a : String) :
    a ∈ (addML ml_w acc rec).map Prod.fst ↔
      a ∈ acc.map Prod.fst ∨ (a = rec.career_id ∧ rec.career_id ≠ "") := by
  unfold addML
  by_cases hid : rec.career_id = ""
  · rw [if_pos hid]
    simp [hid]
  · rw [if_neg hid]
    by_cases hlk : (acc.lookup rec.career_id).isSome = true
    · rw [if_pos hlk, keys_map_update]
      constructor
      · exact fun h => Or.inl h
      · rintro (h | ⟨rfl, _⟩)
        · exact h
        · exact lookup_isSome_mem_keys acc _ hlk
    · rw [if_neg hlk]
      simp only [List.map_append, List.mem_append, List.map_cons, List.map_nil,
        List.mem_cons, List.not_mem_nil, or_false]
      tauto

theorem mem_keys_foldl_addML (ml_w : ℚ) :
    ∀ (M : List MLRec) (acc : List (String × CombinedEntry)) (a : String),
      a ∈ (M.foldl (addML ml_w) acc).map Prod.fst ↔
        a ∈ acc.map Prod.fst ∨ ∃ rec ∈ M, rec.career_id = a ∧ rec.career_id ≠ "" := by
  intro M
  induction M with
  | nil => simp
  | cons rec M ih =>
    intro acc a
    rw [List.foldl_cons, ih, mem_keys_addML]
    simp only [List.mem_cons]
    constructor
    · rintro ((h | ⟨rfl, h2⟩) | ⟨r, hr, h1, h2⟩)
      · exact Or.inl h
      · exact Or.inr ⟨rec, Or.inl rfl, rfl, h2⟩
      · exact Or.inr ⟨r, Or.inr hr, h1, h2⟩
    · rintro (h | ⟨r, rfl | hr, h1, h2⟩)
      · exact Or.inl (Or.inl h)
      · exact Or.inl (Or.inr ⟨h1.symm, h2⟩)
      · exact Or.inr ⟨r, hr, h1, h2⟩

theorem combine_ids_mem (R : List RuleRec) (M : List MLRec) (rule_w ml_w : ℚ) (a : String) :
    a ∈ (combine_predictions R M rule_w ml_w).map (fun e => e.career_id) ↔
      (∃ r ∈ R, r.career_id = a ∧ r.career_id ≠ "") ∨
      (∃ rec ∈ M, rec.career_id = a ∧ rec.career_id ≠ "") := by
  constructor
  · intro h
    rcases List.mem_map.mp h with ⟨e, he, rfl⟩
    rcases (combine_mem_iff R M rule_w ml_w e).mp he with ⟨kv, hkv, rfl⟩
    have hw := combine_assoc_wf R M rule_w ml_w kv hkv
    have hkey : kv.1 ∈ (M.foldl (addML ml_w) (R.foldl (seedRule rule_w) [])).map Prod.fst :=
      List.mem_map_of_mem Prod.fst hkv
    rw [mem_keys_foldl_addML, mem_keys_foldl_seed] at hkey
    show (∃ r ∈ R, r.career_id = kv.2.career_id ∧ r.career_id ≠ "") ∨
      (∃ rec ∈ M, rec.career_id = kv.2.career_id ∧ rec.career_id ≠ "")
    rw [hw.2]
    rcases hkey with (h1 | h1) | h1
    · simp at h1
    · exact Or.inl h1
    · exact Or.inr h1
  · intro h
    have hkey : a ∈ (M.foldl (addML ml_w) (R.foldl (seedRule rule_w) [])).map Prod.fst := by
      rw [mem_keys_foldl_addML, mem_keys_foldl_seed]
      rcases h with h | h
      · exact Or.inl (Or.inr h)
      · exact Or.inr h
    rcases List.mem_map.mp hkey with ⟨kv, hkv, rfl⟩
    apply List.mem_map.mpr
    refine ⟨{ kv.2 with match_score := pyRound kv.2.combined_score 2 }, ?_, ?_⟩
    · exact (combine_mem_iff R M rule_w ml_w _).mpr ⟨kv, hkv, rfl⟩
    · exact (combine_assoc_wf R M rule_w ml_w kv hkv).2

/-- C5, amended: `combine(R, [])` gives every output entry `ml_score = 0` and
`combined_score = rule_score × 0.4`; `combine([], M)` gives every output entry
`rule_score = 0` and `combined_score = ml_score × 0.6` provided no career id
occurs twice in `M` (a repeated id accumulates a second weighted ML
contribution, breaking the equation); the output id set equals the union of
the input id sets provided every input entry has a non-empty id (empty-id
entries are silently dropped). -/
theorem c5_amended (R : List RuleRec) (M : List MLRec) :
    (∀ e ∈ combine_predictions R [] (2/5) (3/5),
      e.ml_score = 0 ∧ e.combined_score = e.rule_score * (2/5)) ∧
    ((M.Pairwise fun a b => a.career_id ≠ b.career_id) →
      ∀ e ∈ combine_predictions [] M (2/5) (3/5),
        e.rule_score = 0 ∧ e.combined_score = e.ml_score * (3/5)) ∧
    ((∀ r ∈ R, r.career_id ≠ "") → (∀ rec ∈ M, rec.career_id ≠ "") →
      ((combine_predictions R M (2/5) (3/5)).map (fun e => e.career_id)).toFinset =
        (R.map (fun r => r.career_id)).toFinset ∪
        (M.map (fun rec => rec.career_id)).toFinset) := by
  refine ⟨?_, ?_, ?_⟩
  · intro e he
    rcases (combine_mem_iff R [] (2/5) (3/5) e).mp he with ⟨kv, hkv, rfl⟩
    rw [List.foldl_nil] at hkv
    have hP : kv.2.ml_score = 0 ∧ kv.2.combined_score = kv.2.rule_score * (2/5) := by
      refine foldl_seedRule_pres (2/5)
        (fun kv => kv.2.ml_score = 0 ∧ kv.2.combined_score = kv.2.rule_score * (2/5))
        (fun rec h => ⟨rfl, rfl⟩) R [] (by simp) kv hkv
    exact hP
  · intro hpw e he
    rcases (combine_mem_iff [] M (2/5) (3/5) e).mp he with ⟨kv, hkv, rfl⟩
    rw [List.foldl_nil] at hkv
    have hP : kv.2.rule_score = 0 ∧ kv.2.combined_score = kv.2.ml_score * (3/5) := by
      refine foldl_addML_fresh (3/5)
        (fun kv => kv.2.rule_score = 0 ∧ kv.2.combined_score = kv.2.ml_score * (3/5))
        (fun rec h => ⟨rfl, rfl⟩) M [] (by simp) (by simp) hpw kv hkv
    exact hP
  · intro hR hM
    ext a
    rw [List.mem_toFinset, Finset.mem_union, List.mem_toFinset, List.mem_toFinset,
      combine_ids_mem]
    constructor
    · rintro (⟨r, hr, rfl, _⟩ | ⟨rec, hrec, rfl, _⟩)
      · exact Or.inl (List.mem_map_of_mem _ hr)
      · exact Or.inr (List.mem_map_of_mem _ hrec)
    · rintro (h | h)
      · rcases List.mem_map.mp h with ⟨r, hr, rfl⟩
        exact Or.inl ⟨r, hr, rfl, hR r hr⟩
      · rcases List.mem_map.mp h with ⟨rec, hrec, rfl⟩
        exact Or.inr ⟨rec, hrec, rfl, hM rec hrec⟩

/-- An ML result entry with a repeated career id, used to exhibit the
accumulation behaviour of `combine_predictions`. -/
def mlDupA : MLRec := ⟨"a", 1/2⟩

/-- C5 counterexample support: (i) an input entry with an empty career id is
dropped, so the output id set misses the claimed union; (ii) with a career id
repeated in the model list, the second occurrence accumulates another weighted
contribution, so `combined_score = ml_score × 0.6` fails. -/
theorem c5_counterexample :
    ((combine_predictions [⟨"", 50⟩] [] (2/5) (3/5)).map (fun e => e.career_id)).toFinset ≠
      (([⟨"", 50⟩] : List RuleRec).map (fun r => r.career_id)).toFinset ∪
        (([] : List MLRec).map (fun rec => rec.career_id)).toFinset ∧
    (combine_predictions [] [mlDupA, mlDupA] (2/5) (3/5)).map
        (fun e => (e.rule_score, e.ml_score, e.combined_score)) = [(0, 50, 60)] ∧
    (60 : ℚ) ≠ 50 * (3/5) := by
  refine ⟨?_, ?_, by norm_num⟩
  · have h1 : combine_predictions [⟨"", 50⟩] [] (2/5) (3/5) = [] := rfl
    rw [h1]
    decide
  · norm_num [combine_predictions, mlDupA, addML, ml_entry, apply_ml, List.lookup,
      List.insertionSort, List.orderedInsert]

/-- Witness for `c5_amended` at concrete one-entry inputs with distinct
non-empty ids. -/
theorem c5_amended_witness :
    ((combine_predictions [(⟨"se", 80⟩ : RuleRec)] [(⟨"ds", 7/10⟩ : MLRec)] (2/5) (3/5)).map
        (fun e => e.career_id)).toFinset =
      (([(⟨"se", 80⟩ : RuleRec)]).map (fun r => r.career_id)).toFinset ∪
        (([(⟨"ds", 7/10⟩ : MLRec)]).map (fun rec => rec.career_id)).toFinset ∧
    (∀ e ∈ combine_predictions [] [(⟨"ds", 7/10⟩ : MLRec)] (2/5) (3/5),
      e.rule_score = 0 ∧ e.combined_score = e.ml_score * (3/5)) := by
  constructor
  · exact (c5_amended [⟨"se", 80⟩] [⟨"ds", 7/10⟩]).2.2
      (by intro r hr; rw [List.mem_singleton.mp hr]; decide)
      (by intro rec hrec; rw [List.mem_singleton.mp hrec]; decide)
  · exact (c5_amended [] [⟨"ds", 7/10⟩]).2.1 (by simp)

/-! ## Top-k selection of the model adapter (C7)

Stable ascending argsort followed by `[-k:][::-1]` is characterised here: the
result is the first `k` of the descending sort whose ties are broken toward
the HIGHER class index (reversal turns the stable ascending tie order around).
-/

/-- Ascending probability with ties broken by lower index: the lexicographic
order realised by a stable ascending argsort. -/
def lexR (p : List ℚ) (i j : ℕ) : Prop :=
  probGet p i < probGet p j ∨ (probGet p i = probGet p j ∧ i ≤ j)

instance lexRDec (p : List ℚ) : DecidableRel (lexR p) := fun i j =>
  inferInstanceAs (Decidable (probGet p i < probGet p j ∨
    (probGet p i = probGet p j ∧ i ≤ j)))

/-- Descending probability with ties broken by higher index: what the code's
selection actually produces. -/
def descHi (p : List ℚ) (i j : ℕ) : Prop := lexR p j i

instance descHiDec (p : List ℚ) : DecidableRel (descHi p) := fun i j => lexRDec p j i

/-- Descending probability with ties broken by LOWER class index: the ordering
asserted by the specification sentence. -/
def descLo (p : List ℚ) (i j : ℕ) : Prop :=
  probGet p j < probGet p i ∨ (probGet p i = probGet p j ∧ i ≤ j)

instance descLoDec (p : List ℚ) : DecidableRel (descLo p) := fun i j =>
  inferInstanceAs (Decidable (probGet p j < probGet p i ∨
    (probGet p i = probGet p j ∧ i ≤ j)))

/-- The spec-side selection: first `k` of the descending sort with ties broken
toward the lower class index, following the claim's words. -/
def spec_top_indices (p : List ℚ) (k : ℕ) : List ℕ :=
  ((List.range p.length).insertionSort (descLo p)).take k

theorem lexR_total (p : List ℚ) (i j : ℕ) : lexR p i j ∨ lexR p j i := by
  unfold lexR
  rcases lt_trichotomy (probGet p i) (probGet p j) with h | h | h
  · exact Or.inl (Or.inl h)
  · rcases le_total i j with hij | hij
    · exact Or.inl (Or.inr ⟨h, hij⟩)
    · exact Or.inr (Or.inr ⟨h.symm, hij⟩)
  · exact Or.inr (Or.inl h)

theorem lexR_trans {p : List ℚ} {i j k : ℕ} (h1 : lexR p i j) (h2 : lexR p j k) :
    lexR p i k := by
  unfold lexR at h1 h2 ⊢
  rcases h1 with h1 | ⟨h1e, h1le⟩ <;> rcases h2 with h2 | ⟨h2e, h2le⟩
  · exact Or.inl (lt_trans h1 h2)
  · exact Or.inl (h2e ▸ h1)
  · exact Or.inl (h1e ▸ h2)
  · exact Or.inr ⟨h1e.trans h2e, le_trans h1le h2le⟩

theorem lexR_antisymm {p : List ℚ} {i j : ℕ} (h1 : lexR p i j) (h2 : lexR p j i) :
    i = j := by
  unfold lexR at h1 h2
  rcases h1 with h1 | ⟨h1e, h1le⟩ <;> rcases h2 with h2 | ⟨h2e, h2le⟩
  · exact absurd (lt_trans h1 h2) (lt_irrefl _)
  · exact absurd (h2e ▸ h1) (lt_irrefl _)
  · exact absurd (h1e ▸ h2) (lt_irrefl _)
  · exact le_antisymm h1le h2le

instance lexRTotalInst (p : List ℚ) : IsTotal ℕ (lexR p) := ⟨lexR_total p⟩

instance lexRTransInst (p : List ℚ) : IsTrans ℕ (lexR p) :=
  ⟨fun _ _ _ => lexR_trans⟩

instance lexRAntisymmInst (p : List ℚ) : IsAntisymm ℕ (lexR p) :=
  ⟨fun _ _ => lexR_antisymm⟩

instance descHiTotalInst (p : List ℚ) : IsTotal ℕ (descHi p) :=
  ⟨fun i j => lexR_total p j i⟩

instance descHiTransInst (p : List ℚ) : IsTrans ℕ (descHi p) :=
  ⟨fun _ _ _ h1 h2 => lexR_trans h2 h1⟩

instance descHiAntisymmInst (p : List ℚ) : IsAntisymm ℕ (descHi p) :=
  ⟨fun _ _ h1 h2 => lexR_antisymm h2 h1⟩

theorem orderedInsert_sorted_lex (p : List ℚ) (a : ℕ) :
    ∀ (l : List ℕ), List.Sorted (lexR p) l → (∀ x ∈ l, a < x) →
      List.Sorted (lexR p) (l.orderedInsert (argRle p) a) := by
  intro l
  induction l with
  | nil =>
    intro _ _
    exact List.sorted_singleton a
  | cons b t ih =>
    intro hl ha
    rw [List.orderedInsert]
    by_cases hr : argRle p a b
    · rw [if_pos hr]
      have hab : lexR p a b := by
        rcases lt_or_eq_of_le hr with h | h
        · exact Or.inl h
        · exact Or.inr ⟨h, le_of_lt (ha b (List.mem_cons_self b t))⟩
      apply List.sorted_cons.mpr
      refine ⟨?_, hl⟩
      intro x hx
      rcases List.mem_cons.mp hx with rfl | hx
      · exact hab
      · exact lexR_trans hab ((List.sorted_cons.mp hl).1 x hx)
    · rw [if_neg hr]
      have hba : probGet p b < probGet p a := lt_of_not_le hr
      apply List.sorted_cons.mpr
      constructor
      · intro x hx
        rcases (List.mem_orderedInsert (argRle p)).mp hx with rfl | hx
        · exact Or.inl hba
        · exact (List.sorted_cons.mp hl).1 x hx
      · exact ih (List.sorted_cons.mp hl).2 (fun x hx => ha x (List.mem_cons_of_mem _ hx))

theorem insertionSort_sorted_lex (p : List ℚ) :
    ∀ (l : List ℕ), l.Pairwise (· < ·) →
      List.Sorted (lexR p) (List.insertionSort (argRle p) l) := by
  intro l
  induction l with
  | nil =>
    intro _
    simp
  | cons a t ih =>
    intro hpw
    rw [List.insertionSort]
    have hpw' := List.pairwise_cons.mp hpw
    apply orderedInsert_sorted_lex
    · exact ih hpw'.2
    · intro x hx
      exact hpw'.1 x ((List.Perm.mem_iff (List.perm_insertionSort _ _)).mp hx)

theorem argsort_sorted_lex (p : List ℚ) : List.Sorted (lexR p) (argsort p) :=
  insertionSort_sorted_lex p _ (List.pairwise_lt_range _)

/-- The reversed stable ascending argsort equals the descending sort with
ties toward the higher class index. -/
theorem argsort_reverse_eq (p : List ℚ) :
    (argsort p).reverse = List.insertionSort (descHi p) (List.range p.length) := by
  apply List.eq_of_perm_of_sorted (r := descHi p)
  · exact ((List.reverse_perm (argsort p)).trans
      (List.perm_insertionSort (argRle p) (List.range p.length))).trans
      (List.perm_insertionSort (descHi p) (List.range p.length)).symm
  · show List.Pairwise (descHi p) (argsort p).reverse
    rw [List.pairwise_reverse]
    exact argsort_sorted_lex p
  · exact List.sorted_insertionSort _ _

theorem top_indices_eq_take (p : List ℚ) (k : ℕ) (hk : 1 ≤ k) :
    top_indices p k = (List.insertionSort (descHi p) (List.range p.length)).take k := by
  unfold top_indices lastSlice
  rw [if_neg (by omega : ¬ k = 0), List.reverse_drop, argsort_reverse_eq]
  have hlen : (argsort p).length = p.length := by
    unfold argsort
    rw [List.length_insertionSort, List.length_range]
  have hslen : (List.insertionSort (descHi p) (List.range p.length)).length = p.length := by
    rw [List.length_insertionSort, List.length_range]
  by_cases hkl : k ≤ (argsort p).length
  · congr 1
    omega
  · rw [List.take_of_length_le (by omega), List.take_of_length_le (by omega)]

theorem pyRound_mul_100 (c : ℚ) : pyRound (c * 100) 2 = pyRound c 4 * 100 := by
  unfold pyRound
  rw [show c * 100 * 10 ^ 2 = c * 10 ^ 4 by ring,
    show (10:ℚ) ^ 2 = 100 by norm_num, show (10:ℚ) ^ 4 = 10000 by norm_num]
  ring

theorem except_ok_bind {α β : Type} (a : α) (f : α → Except String β) :
    (Except.ok a >>= f) = f a := rfl

theorem mapM_ok {α β : Type} (l : List α) (f : α → Except String β) (g : α → β)
    (h : ∀ x ∈ l, f x = Except.ok (g x)) : l.mapM f = Except.ok (l.map g) := by
  induction l with
  | nil => rfl
  | cons a t ih =>
    rw [List.mapM_cons, h a (List.mem_cons_self a t),
      ih (fun x hx => h x (List.mem_cons_of_mem _ hx)), List.map_cons]
    rfl

theorem inverse_transform_ok (le : LabelEncoder) (idx : ℕ) (h : idx < le.classes.length) :
    inverse_transform (some le) idx = Except.ok le.classes[idx] := by
  show (match le.classes[idx]? with
    | some label => Except.ok label
    | none => Except.error "class index out of range") = Except.ok le.classes[idx]
  rw [List.getElem?_eq_getElem h]

theorem build_prediction_ok (le : LabelEncoder) (p : List ℚ) (idx : ℕ)
    (h : idx < le.classes.length) :
    build_prediction (some le) p idx = Except.ok
      { career_id := ((le.classes.getD idx "").toLower).replace " " "_"
        career_name := le.classes.getD idx ""
        confidence := pyRound (probGet p idx) 4
        match_score := pyRound (probGet p idx * 100) 2 } := by
  have hgetD : le.classes.getD idx "" = le.classes[idx] := by
    rw [List.getD_eq_getElem?_getD, List.getElem?_eq_getElem h]
    rfl
  unfold build_prediction
  rw [inverse_transform_ok le idx h, hgetD]
  rfl

/-- Evaluation of a successful `predict` run: with a loaded model, a label
encoder covering all selected indices, no scaler, and probabilities `p`, the
output packages exactly the top indices of `p`. -/
theorem predict_ok_eval (s : MLPredictor) (mdl : MLModel) (le : LabelEncoder)
    (u : UserProfile) (k : ℕ) (p : List ℚ)
    (hm : s.model = some mdl) (hle : s.label_encoder = some le) (hsc : s.scaler = none)
    (hp : mdl.predict_proba (prepare_features s u).1 = Except.ok p)
    (hrange : ∀ i ∈ top_indices p k, i < le.classes.length) :
    (predict s u k).1 = (top_indices p k).map (fun idx =>
      { career_id := ((le.classes.getD idx "").toLower).replace " " "_"
        career_name := le.classes.getD idx ""
        confidence := pyRound (probGet p idx) 4
        match_score := pyRound (probGet p idx * 100) 2 }) := by
  have hcore : predict_core mdl (prepare_features s u).2 (prepare_features s u).1 k =
      Except.ok ((top_indices p k).map (fun idx =>
        { career_id := ((le.classes.getD idx "").toLower).replace " " "_"
          career_name := le.classes.getD idx ""
          confidence := pyRound (probGet p idx) 4
          match_score := pyRound (probGet p idx * 100) 2 })) := by
    unfold predict_core
    rw [prepare_features_snd]
    simp only [hsc, hle, pure_bind, hp, except_ok_bind]
    rw [mapM_ok _ _ _ (fun idx hidx => build_prediction_ok le p idx (hrange idx hidx))]
  unfold predict
  rw [hm]
  simp only [hcore]

/-! Fixtures for the tie-breaking counterexample and the ordering witness. -/

/-- A two-class label space. -/
def leAB : LabelEncoder := ⟨["Alpha", "Beta"]⟩

/-- Tied class probabilities. -/
def tieProbs : List ℚ := [1/2, 1/2]

/-- A model producing tied probabilities for both classes. -/
def modelTie : MLModel := ⟨fun _ => Except.ok tieProbs⟩

/-- A fully-loaded predictor over the tied model. -/
def mlTie : MLPredictor :=
  { model := some modelTie, label_encoder := some leAB, feature_names := some [],
    scaler := none }

theorem argsort_pair {a b : ℚ} (hab : a ≤ b) : argsort [a, b] = [0, 1] := by
  unfold argsort
  have h01 : argRle [a, b] 0 1 := hab
  show List.orderedInsert (argRle [a, b]) 0 (List.orderedInsert (argRle [a, b]) 1 []) = [0, 1]
  rw [List.orderedInsert, List.orderedInsert, if_pos h01]

theorem tie_top_indices : top_indices tieProbs 2 = [1, 0] := by
  unfold top_indices lastSlice tieProbs
  rw [argsort_pair (le_refl (1/2 : ℚ))]
  rfl

theorem tie_spec_top : spec_top_indices tieProbs 2 = [0, 1] := by
  unfold spec_top_indices
  have h01 : descLo tieProbs 0 1 := Or.inr ⟨rfl, by omega⟩
  show (List.orderedInsert (descLo tieProbs) 0
    (List.orderedInsert (descLo tieProbs) 1 [])).take 2 = [0, 1]
  rw [List.orderedInsert, List.orderedInsert, if_pos h01]
  rfl

/-- C7 counterexample support: on tied probabilities the code emits class
index 1 before class index 0 — ties are broken toward the HIGHER class index —
while the claim's ordering (descending, ties toward the lower index) would
emit ["Alpha", "Beta"]. -/
theorem c7_counterexample :
    (predict mlTie profile0 2).1.map (fun pr => pr.career_name) = ["Beta", "Alpha"] ∧
    spec_top_indices tieProbs 2 = [0, 1] ∧
    (["Beta", "Alpha"] : List String) ≠ ["Alpha", "Beta"] := by
  refine ⟨?_, tie_spec_top, by decide⟩
  have hr : ∀ i ∈ top_indices tieProbs 2, i < leAB.classes.length := by
    rw [tie_top_indices]
    decide
  rw [predict_ok_eval mlTie modelTie leAB profile0 2 tieProbs rfl rfl rfl rfl hr,
    tie_top_indices]
  rfl

/-- C7, amended: for a loaded model run that produces probabilities `p`, the
adapter returns the `k` classes of highest probability in descending order
with probability ties broken in favor of the HIGHER class index (the reversal
of a stable ascending argsort flips the tie order), and each prediction
carries `confidence` rounded to 4 decimals and
`match_score = confidence × 100`. -/
theorem c7_amended (s : MLPredictor) (mdl : MLModel) (le : LabelEncoder)
    (u : UserProfile) (k : ℕ) (p : List ℚ)
    (hm : s.model = some mdl) (hle : s.label_encoder = some le) (hsc : s.scaler = none)
    (hp : mdl.predict_proba (prepare_features s u).1 = Except.ok p)
    (hk : 1 ≤ k)
    (hrange : ∀ i ∈ top_indices p k, i < le.classes.length) :
    (predict s u k).1 = ((List.insertionSort (descHi p) (List.range p.length)).take k).map
      (fun idx =>
        { career_id := ((le.classes.getD idx "").toLower).replace " " "_"
          career_name := le.classes.getD idx ""
          confidence := pyRound (probGet p idx) 4
          match_score := pyRound (probGet p idx) 4 * 100 }) ∧
    (∀ pred ∈ (predict s u k).1, pred.match_score = pred.confidence * 100) := by
  have hfst := predict_ok_eval s mdl le u k p hm hle hsc hp hrange
  constructor
  · rw [hfst, ← top_indices_eq_take p k hk]
    simp only [pyRound_mul_100]
  · intro pred hpred
    rw [hfst] at hpred
    rcases List.mem_map.mp hpred with ⟨idx, _, rfl⟩
    exact pyRound_mul_100 (probGet p idx)

/-- Distinct class probabilities for the ordering witness. -/
def wProbs : List ℚ := [1/5, 7/10]

/-- A model producing the distinct probabilities. -/
def modelW : MLModel := ⟨fun _ => Except.ok wProbs⟩

/-- A fully-loaded predictor over the distinct-probability model. -/
def mlW : MLPredictor :=
  { model := some modelW, label_encoder := some leAB, feature_names := some [],
    scaler := none }

theorem w_top_indices : top_indices wProbs 1 = [1] := by
  unfold top_indices lastSlice wProbs
  rw [argsort_pair (by norm_num : (1/5 : ℚ) ≤ 7/10)]
  rfl

/-- Witness for `c7_amended` at the distinct-probability fixture with k = 1. -/
theorem c7_amended_witness :
    (predict mlW profile0 1).1 =
      ((List.insertionSort (descHi wProbs) (List.range wProbs.length)).take 1).map
        (fun idx =>
          { career_id := ((leAB.classes.getD idx "").toLower).replace " " "_"
            career_name := leAB.classes.getD idx ""
            confidence := pyRound (probGet wProbs idx) 4
            match_score := pyRound (probGet wProbs idx) 4 * 100 }) ∧
    (∀ pred ∈ (predict mlW profile0 1).1, pred.match_score = pred.confidence * 100) :=
  c7_amended mlW modelW leAB profile0 1 wProbs rfl rfl rfl rfl (by norm_num)
    (by rw [w_top_indices]; decide)

/-! ## Feature-schema fallbacks (C8) -/

/-- A backend profile used to exercise the basic feature fallback. -/
def backendProfileB : BackendUserProfile :=
  { gender := none, education_level := "bachelors", ug_course := none,
    specialization := none, skills := ["python", "sql"], interests := ["data"],
    cgpa := some 80, certifications := ["cert1"] }

/-- C8 counterexample support: with the feature schema absent, the engine's
Model Adapter builds a 31-entry vector over the built-in default feature-name
order — not the 4-entry basic vector (education rank, GPA fraction, skill
count, certification count), which belongs to the separate backend
predictor. -/
theorem c8_counterexample :
    (prepare_features mlMut profile0).1.length = 31 ∧
    (extract_basic_features backendProfileB).length = 4 ∧
    (prepare_features mlMut profile0).1 ≠ extract_basic_features backendProfileB := by
  refine ⟨rfl, rfl, ?_⟩
  intro h
  have hlen := congrArg List.length h
  rw [show (prepare_features mlMut profile0).1.length = 31 from rfl,
    show (extract_basic_features backendProfileB).length = 4 from rfl] at hlen
  omega

/-- C8, amended: when the loaded artifact provides no feature schema, the
engine's Model Adapter (`MLPredictor._prepare_features`) falls back to its
built-in 31-name default feature order; the alternate basic feature order —
education-level rank, GPA fraction, skill count, certification count — is the
last-resort fallback of the separate backend predictor
(`CareerPredictor._extract_features`), taken whenever its feature columns or
encoders bundle are unavailable. -/
theorem c8_amended :
    (∀ (cp : CareerPredictor) (u : BackendUserProfile),
      (cp.feature_columns = none ∨ cp.feature_columns = some [] ∨ cp.encoders = none) →
      extract_features cp u = extract_basic_features u) ∧
    (∀ (s : MLPredictor) (u : UserProfile), s.feature_names = none →
      (prepare_features s u).1 = build_feature_vector default_feature_names u) := by
  constructor
  · rintro ⟨fc, enc⟩ u (h | h | h)
    · have hfc : fc = none := h
      subst hfc
      rfl
    · have hfc : fc = some [] := h
      subst hfc
      cases enc with
      | none => rfl
      | some encs => simp [extract_features]
    · have henc : enc = none := h
      subst henc
      cases fc with
      | none => rfl
      | some cols => rfl
  · intro s u h
    unfold prepare_features
    rw [h]

/-- Witness for `c8_amended` at concrete states missing the schema. -/
theorem c8_amended_witness :
    extract_features ⟨none, none⟩ backendProfileB = extract_basic_features backendProfileB ∧
    (prepare_features mlMut profile0).1 =
      build_feature_vector default_feature_names profile0 :=
  ⟨c8_amended.1 ⟨none, none⟩ backendProfileB (Or.inl rfl),
   c8_amended.2 mlMut profile0 rfl⟩

end SkillLantern
